import Mathlib

/-!
Verification of the JDA-Backend analytics pipeline against its specification.

The TypeScript sources are shallowly embedded in Lean 4:

* JS numbers are modelled by the rationals `ℚ`; the special values produced by
  `Math.max`/`Math.min` over an empty argument list are modelled by `JsNumber`
  (a rational, `+Infinity` or `-Infinity`).
* `Number.prototype.toFixed(n)` followed by `parseFloat` is modelled by decimal
  rounding (half away from zero) at `n` digits.
* `Math.sqrt` has no exact rational counterpart, so the statistics engine is
  parameterised by the square-root function `sqrt : ℚ → ℚ`; every claim proved
  about the engine depends only on the property `sqrt 0 = 0`, which holds for
  the real `Math.sqrt`.
* JS strings are Lean `String`s / `List Char`; the case conversions model the
  ASCII fragment of `toLowerCase`/`toUpperCase` actually exercised by the code.
* JSON values (including the distinction between `undefined` and `null` and JS
  truthiness) are modelled by `JsValue`.  `JSON.parse` is modelled by a strict
  recursive-descent JSON parser; exceptions are modelled by `Except`.
* JS `Map`s / plain-object records are association lists preserving insertion
  order, with key update in place.
-/

/-! ### JS string primitives -/

/-- ASCII fragment of `String.prototype.toLowerCase`, on one character. -/
def jsToLowerChar (c : Char) : Char :=
  if 'A' ≤ c ∧ c ≤ 'Z' then Char.ofNat (c.toNat + 32) else c

/-- ASCII fragment of `String.prototype.toUpperCase`, on one character. -/
def jsToUpperChar (c : Char) : Char :=
  if 'a' ≤ c ∧ c ≤ 'z' then Char.ofNat (c.toNat - 32) else c

/-- `s.toLowerCase()` on the character list of a string. -/
def jsToLowerList (l : List Char) : List Char := l.map jsToLowerChar

/-- `s.toLowerCase()`. -/
def jsToLower (s : String) : String := ⟨jsToLowerList s.data⟩

/-- `s.toUpperCase()`. -/
def jsToUpper (s : String) : String := ⟨s.data.map jsToUpperChar⟩

/-- Substring containment check on character lists. -/
def listIsInfix (needle : List Char) : List Char → Bool
  | [] => needle.isEmpty
  | c :: rest => needle.isPrefixOf (c :: rest) || listIsInfix needle rest

/-- `haystack.includes(needle)` (substring containment on character lists). -/
def jsIncludes (haystack needle : String) : Bool :=
  listIsInfix needle.data haystack.data

/-- The whitespace class used by `trim` and the regex class `\s`
(ASCII fragment). -/
def jsIsWs (c : Char) : Bool :=
  c = ' ' ∨ c = '\t' ∨ c = '\n' ∨ c = '\r'

/-- `s.trim()` on character lists. -/
def jsTrimList (l : List Char) : List Char :=
  (((l.dropWhile jsIsWs).reverse).dropWhile jsIsWs).reverse

/-- `s.trim()`. -/
def jsTrim (s : String) : String := ⟨jsTrimList s.data⟩

/-- Global literal replacement: if the pattern is a prefix, drop it and emit
the replacement; the scan resumes after the replacement.  Fuel-indexed for
structural recursion; the wrapper passes more fuel than the input length. -/
def jsReplaceAllList (pat rep : List Char) : Nat → List Char → List Char
  | 0, l => l
  | _, [] => []
  | Nat.succ fuel, c :: rest =>
    if pat ≠ [] ∧ pat.isPrefixOf (c :: rest) then
      rep ++ jsReplaceAllList pat rep fuel ((c :: rest).drop pat.length)
    else
      c :: jsReplaceAllList pat rep fuel rest

/-- `s.replace(/lit/g, rep)` for a literal pattern. -/
def jsReplaceAll (s pat rep : String) : String :=
  ⟨jsReplaceAllList pat.data rep.data (s.data.length + 1) s.data⟩

/-- `s.indexOf(c)` for a single character: `none` models `-1`. -/
def jsIndexOfChar (l : List Char) (c : Char) : Option Nat :=
  l.findIdx? (· = c)

/-- `s.lastIndexOf(c)` for a single character: `none` models `-1`. -/
def jsLastIndexOfChar (l : List Char) (c : Char) : Option Nat :=
  (l.reverse.findIdx? (· = c)).map (fun i => l.length - 1 - i)

/-! ### Decimal rounding (`toFixed` composed with `parseFloat`) -/

/-- Round a rational to the nearest integer, half away from zero
(the rounding used by `toFixed` on decimal digit strings). -/
def roundHalfAway (q : ℚ) : Int :=
  if q < 0 then -⌊-q + 1/2⌋ else ⌊q + 1/2⌋

/-- `parseFloat(x.toFixed(d))` as a rational. -/
def jsToFixedNum (d : Nat) (q : ℚ) : ℚ :=
  (roundHalfAway (q * (10 : ℚ) ^ d) : ℚ) / (10 : ℚ) ^ d

/-- `Math.round` (half toward positive infinity). -/
def jsMathRound (q : ℚ) : Int := ⌊q + 1/2⌋

/-- Decimal digit string of a natural number. -/
def natDigitsStr (n : Nat) : String := toString n

/-- `x.toFixed(1)` as a string (model: exact decimal of the rounded value). -/
def jsToFixed1Str (q : ℚ) : String :=
  let scaled : Int := roundHalfAway (q * 10)
  let sign : String := if scaled < 0 then "-" else ""
  let a : Nat := scaled.natAbs
  sign ++ natDigitsStr (a / 10) ++ "." ++ natDigitsStr (a % 10)

/-- `x.toFixed(0)` as a string. -/
def jsToFixed0Str (q : ℚ) : String :=
  let scaled : Int := roundHalfAway q
  toString scaled

/-! ### JS numbers with infinities (`Math.max`/`Math.min` of a spread list) -/

/-- A JS number that may be an infinity (as produced by `Math.max()` and
`Math.min()` with no arguments). -/
inductive JsNumber where
  | finite (q : ℚ)
  | posInf
  | negInf
  deriving DecidableEq, Repr

/-- `Math.max(...values)`: the fold starts from `-Infinity`. -/
def jsMaxList (l : List ℚ) : JsNumber :=
  l.foldl (fun acc x =>
    match acc with
    | JsNumber.negInf => JsNumber.finite x
    | JsNumber.posInf => JsNumber.posInf
    | JsNumber.finite m => JsNumber.finite (max m x)) JsNumber.negInf

/-- `Math.min(...values)`: the fold starts from `+Infinity`. -/
def jsMinList (l : List ℚ) : JsNumber :=
  l.foldl (fun acc x =>
    match acc with
    | JsNumber.posInf => JsNumber.finite x
    | JsNumber.negInf => JsNumber.negInf
    | JsNumber.finite m => JsNumber.finite (min m x)) JsNumber.posInf

/-! ### `src/utils/mathUtils.ts` top section: mean and trend (claim C6) -/

/-- `calculateMean(values)` from mathUtils.ts: 0 on the empty list. -/
def calculateMean (values : List ℚ) : ℚ :=
  if values.length = 0 then 0 else values.sum / values.length

/-- The result type of `calculateTrend`. -/
inductive Trend where
  | INCREASING
  | DECREASING
  | STABLE
  deriving DecidableEq, Repr

/-- `calculateTrend(values)` from mathUtils.ts: split at `floor(n/2)`,
compare half averages, 5 percent thresholds, first-half average 0 is STABLE. -/
def calculateTrend (values : List ℚ) : Trend :=
  if values.length < 2 then Trend.STABLE
  else
    let firstHalf := values.take (values.length / 2)
    let secondHalf := values.drop (values.length / 2)
    let firstAvg := calculateMean firstHalf
    let secondAvg := calculateMean secondHalf
    if firstAvg = 0 then Trend.STABLE
    else
      let change := ((secondAvg - firstAvg) / firstAvg) * 100
      if change > 5 then Trend.INCREASING
      else if change < -5 then Trend.DECREASING
      else Trend.STABLE

/-- The transformation named by the claim: keep the first element, negate every
consecutive delta.  Pointwise this maps x to 2 a - x where a is the head. -/
def reverseDeltas (values : List ℚ) : List ℚ :=
  match values with
  | [] => []
  | a :: _ => values.map (fun x => 2 * a - x)

/-- The INCREASING/DECREASING swap named by the claim. -/
def trendSwap : Trend → Trend
  | Trend.INCREASING => Trend.DECREASING
  | Trend.DECREASING => Trend.INCREASING
  | Trend.STABLE => Trend.STABLE

/-! ### `src/utils/mathUtils.ts`: rule-based delay classification (claim C8) -/

/-- `ruleBasedDelayClassification(remark)`: ordered case-insensitive keyword
rules; the first matching rule wins; no match gives "Uncategorized". -/
def ruleBasedDelayClassification (remark : String) : String :=
  let r := jsToLower remark
  if jsIncludes r "missing" || jsIncludes r "incomplete" || jsIncludes r "incorrect" ||
      jsIncludes r "invalid" || jsIncludes r "document" then "Documentation Issues"
  else if jsIncludes r "understand" || jsIncludes r "unclear" || jsIncludes r "language" ||
      jsIncludes r "response" then "Communication Gaps"
  else if jsIncludes r "approval" || jsIncludes r "coordination" || jsIncludes r "inspection" ||
      jsIncludes r "verification" || jsIncludes r "technical review" then "Process Bottlenecks"
  else if jsIncludes r "late" || jsIncludes r "non-compliance" || jsIncludes r "payment" ||
      jsIncludes r "unavailable" then "Applicant-Side Issues"
  else if jsIncludes r "delayed processing" || jsIncludes r "workload" || jsIncludes r "system" ||
      jsIncludes r "server" || jsIncludes r "down" then "Employee/System-Side Issues"
  else if jsIncludes r "third-party" || jsIncludes r "clearance" || jsIncludes r "utility" ||
      jsIncludes r "audit" then "External Dependencies"
  else if jsIncludes r "complex" || jsIncludes r "dispute" || jsIncludes r "legal" ||
      jsIncludes r "policy" then "Complexity/Special Cases"
  else "Uncategorized"

/-- The ordered rule table of `ruleBasedDelayClassification`, used to state the
first-matching-rule-wins property. -/
def delayRules : List (List String × String) :=
  [ (["missing", "incomplete", "incorrect", "invalid", "document"], "Documentation Issues"),
    (["understand", "unclear", "language", "response"], "Communication Gaps"),
    (["approval", "coordination", "inspection", "verification", "technical review"], "Process Bottlenecks"),
    (["late", "non-compliance", "payment", "unavailable"], "Applicant-Side Issues"),
    (["delayed processing", "workload", "system", "server", "down"], "Employee/System-Side Issues"),
    (["third-party", "clearance", "utility", "audit"], "External Dependencies"),
    (["complex", "dispute", "legal", "policy"], "Complexity/Special Cases") ]

/-- A rule matches a (lower-cased) remark when any of its keywords occurs. -/
def ruleMatches (r : String) (kws : List String) : Bool :=
  kws.any (fun k => jsIncludes r k)

/-- The seven fixed category labels together with "Uncategorized". -/
def delayCategoryLabels : List String :=
  [ "Documentation Issues", "Communication Gaps", "Process Bottlenecks",
    "Applicant-Side Issues", "Employee/System-Side Issues", "External Dependencies",
    "Complexity/Special Cases", "Uncategorized" ]

/-! ### Helper lemmas about means of affinely transformed lists -/

theorem sum_map_twoSub (a : ℚ) (l : List ℚ) :
    (l.map (fun x => 2 * a - x)).sum = l.length * (2 * a) - l.sum := by
  induction l with
  | nil => simp
  | cons x xs ih => simp [ih]; ring

theorem calculateMean_map_twoSub (a : ℚ) (l : List ℚ) (h : l ≠ []) :
    calculateMean (l.map (fun x => 2 * a - x)) = 2 * a - calculateMean l := by
  have hlen : l.length ≠ 0 := by simpa [List.length_eq_zero] using h
  have hlq : (l.length : ℚ) ≠ 0 := by exact_mod_cast hlen
  simp only [calculateMean, List.length_map, if_neg hlen, sum_map_twoSub]
  field_simp
  ring

theorem calculateTrend_of_two_le (values : List ℚ) (h : 2 ≤ values.length) :
    calculateTrend values =
      (if calculateMean (values.take (values.length / 2)) = 0 then Trend.STABLE
       else
         if ((calculateMean (values.drop (values.length / 2)) -
               calculateMean (values.take (values.length / 2))) /
              calculateMean (values.take (values.length / 2))) * 100 > 5 then Trend.INCREASING
         else
           if ((calculateMean (values.drop (values.length / 2)) -
                 calculateMean (values.take (values.length / 2))) /
                calculateMean (values.take (values.length / 2))) * 100 < -5 then Trend.DECREASING
           else Trend.STABLE) := by
  unfold calculateTrend
  rw [if_neg (by omega)]

/-- C6 (amended): for every non-empty sequence the trend is one of INCREASING,
DECREASING, STABLE; and delta reversal swaps INCREASING and DECREASING (and
fixes STABLE) whenever the first-half average equals the first element (in
particular for all sequences of length 2 or 3). -/
theorem trend_total_and_deltaReversal_swap :
    ∀ values : List ℚ, values ≠ [] →
      (calculateTrend values = Trend.INCREASING ∨ calculateTrend values = Trend.DECREASING ∨
        calculateTrend values = Trend.STABLE) ∧
      (calculateMean (values.take (values.length / 2)) = values.headI →
        calculateTrend (reverseDeltas values) = trendSwap (calculateTrend values)) := by
  intro values hne
  constructor
  · cases h : calculateTrend values <;> simp
  · intro hFa
    obtain ⟨a, rest, rfl⟩ : ∃ a rest, values = a :: rest := by
      cases values with
      | nil => exact absurd rfl hne
      | cons a rest => exact ⟨a, rest, rfl⟩
    simp only [List.headI] at hFa
    have hrd : reverseDeltas (a :: rest) = (a :: rest).map (fun x => 2 * a - x) := by
      simp [reverseDeltas]
    by_cases h2 : (a :: rest).length < 2
    · have hrest : rest = [] := by
        cases rest with
        | nil => rfl
        | cons b bs => simp only [List.length_cons] at h2; omega
      subst hrest
      simp [hrd, calculateTrend, trendSwap]
    · push_neg at h2
      have hlen : ((a :: rest).map (fun x => 2 * a - x)).length = (a :: rest).length := by simp
      have h2' : 2 ≤ ((reverseDeltas (a :: rest))).length := by rw [hrd, hlen]; exact h2
      have htake_ne : (a :: rest).take ((a :: rest).length / 2) ≠ [] := by
        apply List.ne_nil_of_length_pos
        rw [List.length_take]
        have : 1 ≤ (a :: rest).length / 2 := Nat.one_le_div_iff (by norm_num) |>.mpr h2
        omega
      have hdrop_ne : (a :: rest).drop ((a :: rest).length / 2) ≠ [] := by
        apply List.ne_nil_of_length_pos
        rw [List.length_drop]
        omega
      rw [calculateTrend_of_two_le _ h2, calculateTrend_of_two_le _ h2']
      rw [hrd, hlen]
      rw [← List.map_take, ← List.map_drop]
      rw [calculateMean_map_twoSub a _ htake_ne, calculateMean_map_twoSub a _ hdrop_ne]
      rw [hFa]
      set Sa := calculateMean ((a :: rest).drop ((a :: rest).length / 2)) with hSa
      by_cases ha : a = 0
      · subst ha
        simp [trendSwap]
      · have h2a : ¬ (2 * a - a = 0) := by intro hc; apply ha; linarith
        rw [if_neg ha, if_neg h2a]
        have harith : ((2 * a - Sa - (2 * a - a)) / (2 * a - a)) * 100 =
            -(((Sa - a) / a) * 100) := by
          have : 2 * a - a = a := by ring
          rw [this]
          field_simp
          ring
        rw [harith]
        split_ifs <;> first
          | rfl
          | (exfalso; linarith)

/-- C6 witness: at the concrete input [3, 1] the hypotheses of the amended
theorem hold (non-empty, first-half average equals the first element) and the
swap conclusion is obtained from the theorem. -/
theorem trend_total_and_deltaReversal_swap_witness :
    ([3, 1] : List ℚ) ≠ [] ∧
      calculateTrend (reverseDeltas ([3, 1] : List ℚ)) =
        trendSwap (calculateTrend ([3, 1] : List ℚ)) := by
  have hne : ([3, 1] : List ℚ) ≠ [] := by simp
  have hmean : calculateMean (([3, 1] : List ℚ).take ((([3, 1] : List ℚ)).length / 2)) =
      ([3, 1] : List ℚ).headI := by
    simp [calculateMean]
  exact ⟨hne, (trend_total_and_deltaReversal_swap ([3, 1] : List ℚ) hne).2 hmean⟩

/-- C6 counterexample: for [1, 3, 10, 10] the trend is INCREASING but the
delta-reversed sequence [1, -1, -8, -8] has first-half average 0 and is
classified STABLE, not DECREASING: the swap stated by the claim fails. -/
theorem trend_deltaReversal_swap_counterexample :
    calculateTrend ([1, 3, 10, 10] : List ℚ) = Trend.INCREASING ∧
      calculateTrend (reverseDeltas ([1, 3, 10, 10] : List ℚ)) = Trend.STABLE := by
  constructor
  · norm_num [calculateTrend, calculateMean]
  · norm_num [calculateTrend, calculateMean, reverseDeltas]

/-- First-matching-rule classifier over an ordered rule table (used to state
the rule-priority property of `ruleBasedDelayClassification`). -/
def classifyRules (r : String) : List (List String × String) → String
  | [] => "Uncategorized"
  | rule :: rest => if ruleMatches r rule.1 then rule.2 else classifyRules r rest

theorem toNat_charOfNat (n : Nat) (h : n < 0xd800) : (Char.ofNat n).toNat = n := by
  have hv : n.isValidChar := Or.inl h
  rw [Char.ofNat, dif_pos hv]
  simp [Char.ofNatAux, Char.toNat, UInt32.toNat, BitVec.toNat_ofNatLt]

theorem charOfNat_toNat (c : Char) : Char.ofNat c.toNat = c := Char.ofNat_toNat c

theorem jsToLowerChar_jsToUpperChar (c : Char) :
    jsToLowerChar (jsToUpperChar c) = jsToLowerChar c := by
  unfold jsToLowerChar jsToUpperChar
  by_cases h : 'a' ≤ c ∧ c ≤ 'z'
  · rw [if_pos h]
    have h97 : 97 ≤ c.toNat := h.1
    have h122 : c.toNat ≤ 122 := h.2
    have hofNat : (Char.ofNat (c.toNat - 32)).toNat = c.toNat - 32 :=
      toNat_charOfNat _ (by omega)
    have hcond : 'A' ≤ Char.ofNat (c.toNat - 32) ∧ Char.ofNat (c.toNat - 32) ≤ 'Z' := by
      constructor
      · show 65 ≤ (Char.ofNat (c.toNat - 32)).toNat
        omega
      · show (Char.ofNat (c.toNat - 32)).toNat ≤ 90
        omega
    rw [if_pos hcond, if_neg (by
      rintro ⟨-, h2⟩
      have : c.toNat ≤ 90 := h2
      omega)]
    rw [hofNat]
    have : c.toNat - 32 + 32 = c.toNat := by omega
    rw [this, charOfNat_toNat]
  · rw [if_neg h]

theorem jsToLower_jsToUpper (s : String) : jsToLower (jsToUpper s) = jsToLower s := by
  simp only [jsToLower, jsToUpper, jsToLowerList, List.map_map]
  congr 1
  exact List.map_congr_left (fun c _ => jsToLowerChar_jsToUpperChar c)

theorem ruleBasedDelayClassification_eq_classifyRules (s : String) :
    ruleBasedDelayClassification s = classifyRules (jsToLower s) delayRules := by
  simp only [ruleBasedDelayClassification, classifyRules, delayRules, ruleMatches,
    List.any_cons, List.any_nil, Bool.or_false, Bool.or_assoc]

theorem classifyRules_first_match (r : String) (rules : List (List String × String))
    (i : Fin rules.length)
    (hm : ruleMatches r (rules.get i).1 = true)
    (hprev : ∀ j : Fin rules.length, (j : Nat) < (i : Nat) → ruleMatches r (rules.get j).1 = false) :
    classifyRules r rules = (rules.get i).2 := by
  induction rules with
  | nil => exact absurd i.isLt (by simp)
  | cons rule rest ih =>
    rcases i with ⟨iv, hi⟩
    cases iv with
    | zero =>
      simp only [List.get] at hm ⊢
      simp [classifyRules, hm]
    | succ n =>
      have h0 : ruleMatches r rule.1 = false := by
        have := hprev ⟨0, by simp⟩ (by simp)
        simpa using this
      simp only [classifyRules, h0, if_neg]
      simp only [List.get] at hm ⊢
      exact ih ⟨n, by simpa using hi⟩ hm
        (fun j hj => by
          have := hprev ⟨j + 1, by
            have hj2 := j.isLt
            simp only [List.length_cons]
            omega⟩ (by simpa using hj)
          simpa using this)

/-- C8: every classification is one of the seven fixed labels or
"Uncategorized"; matching is case-insensitive; when several rules match, the
earliest rule in the fixed order decides. -/
theorem ruleBasedDelayClassification_fixed_categories :
    ∀ s : String,
      ruleBasedDelayClassification s ∈ delayCategoryLabels ∧
      ruleBasedDelayClassification (jsToUpper s) = ruleBasedDelayClassification s ∧
      (∀ i : Fin delayRules.length,
        ruleMatches (jsToLower s) (delayRules.get i).1 = true →
        (∀ j : Fin delayRules.length, (j : Nat) < (i : Nat) →
          ruleMatches (jsToLower s) (delayRules.get j).1 = false) →
        ruleBasedDelayClassification s = (delayRules.get i).2) := by
  intro s
  refine ⟨?_, ?_, ?_⟩
  · simp only [ruleBasedDelayClassification]
    split_ifs <;> simp [delayCategoryLabels]
  · simp only [ruleBasedDelayClassification, jsToLower_jsToUpper]
  · intro i hm hprev
    rw [ruleBasedDelayClassification_eq_classifyRules]
    exact classifyRules_first_match _ _ i hm hprev

/-- C8 witness: "Approval unclear" matches both the communication rule (index
1, keyword "unclear") and the process rule (index 2, keyword "approval"); the
earlier rule wins and the upper-cased input classifies identically. -/
theorem ruleBasedDelayClassification_fixed_categories_witness :
    ruleBasedDelayClassification "Approval unclear" ∈ delayCategoryLabels ∧
      ruleBasedDelayClassification (jsToUpper "Approval unclear") =
        ruleBasedDelayClassification "Approval unclear" ∧
      ruleBasedDelayClassification "Approval unclear" = "Communication Gaps" := by
  have h := ruleBasedDelayClassification_fixed_categories "Approval unclear"
  refine ⟨h.1, h.2.1, ?_⟩
  have hmain := h.2.2 ⟨1, by decide⟩ (by decide)
    (fun j hj => by
      rcases j with ⟨jv, hjv⟩
      have hj0 : jv = 0 := by simpa using hj
      subst hj0
      exact (by decide :
        ruleMatches (jsToLower "Approval unclear") (delayRules.get ⟨0, by decide⟩).1 = false))
  simpa [delayRules] using hmain

/-! ### Association lists modelling JS `Map` (insertion order preserved) -/

/-- `map.has(k)`. -/
def alistHas {κ β : Type} [DecidableEq κ] (m : List (κ × β)) (k : κ) : Bool :=
  m.any (fun e => e.1 = k)

/-- `map.get(k)` as an option. -/
def alistGet? {κ β : Type} [DecidableEq κ] (m : List (κ × β)) (k : κ) : Option β :=
  (m.find? (fun e => e.1 = k)).map (fun e => e.2)

/-- In-place update of the value stored at an existing key. -/
def alistModify {κ β : Type} [DecidableEq κ] (m : List (κ × β)) (k : κ) (f : β → β) :
    List (κ × β) :=
  m.map (fun e => if e.1 = k then (e.1, f e.2) else e)

/-- `map.set(k, v)` used only to insert a key that is absent (appends). -/
def alistAppend {κ β : Type} (m : List (κ × β)) (k : κ) (v : β) :
    List (κ × β) :=
  m ++ [(k, v)]

/-- JS record assignment `obj[k] = v`: update in place or append. -/
def recordSet {κ β : Type} [DecidableEq κ] (m : List (κ × β)) (k : κ) (v : β) :
    List (κ × β) :=
  if alistHas m k then alistModify m k (fun _ => v) else alistAppend m k v

/-- Stable insertion (equal elements keep their original relative order). -/
def stableInsert {α : Type} (lt : α → α → Bool) (a : α) : List α → List α
  | [] => [a]
  | b :: l => if lt a b then a :: b :: l else b :: stableInsert lt a l

/-- Stable sort by a strict comparator, modelling `Array.prototype.sort`
with a consistent comparator. -/
def stableSortBy {α : Type} (lt : α → α → Bool) (l : List α) : List α :=
  l.foldl (fun acc a => stableInsert lt a acc) []

/-- JS `a || b` for strings (empty string is falsy). -/
def jsOrS (s d : String) : String := if s = "" then d else s

/-- JS `a || b` where `a` is an optional string (absent and empty are falsy). -/
def jsOrOptS (o : Option String) (d : String) : String :=
  match o with
  | some s => if s = "" then d else s
  | none => d

/-- Split a character list at maximal runs of separator characters, with JS
`String.prototype.split(/[..]+/)` edge behaviour (leading or trailing runs
produce empty tokens). -/
def splitRunsGo (p : Char → Bool) : Nat → List Char → List Char → List (List Char)
  | 0, _, cur => [cur.reverse]
  | _, [], cur => [cur.reverse]
  | Nat.succ fuel, c :: rest, cur =>
    if p c then cur.reverse :: splitRunsGo p fuel (rest.dropWhile p) []
    else splitRunsGo p fuel rest (c :: cur)

/-- `text.split(/[\s,.;:()\/]+/)`. -/
def jsSplitSeps (s : String) : List String :=
  (splitRunsGo
    (fun c => jsIsWs c || c = ',' || c = '.' || c = ';' || c = ':' || c = '(' || c = ')' || c = '/')
    (s.data.length + 1) s.data []).map (fun l => ⟨l⟩)

/-- Test for a purely numeric token (the regex `^\d+$`). -/
def isAllDigits (s : String) : Bool :=
  s ≠ "" && s.data.all (fun c => '0' ≤ c && c ≤ '9')

/-! ### Data model: normalized workflow step (`parseWorkflowStep` output) -/

/-- One normalized workflow transition record (mathUtils.ts `WorkflowStep`). -/
structure WorkflowStep where
  ticketId : String
  serviceName : String
  parentServiceName : String
  departmentName : String
  post : String
  zoneId : String
  applicationDate : String
  deliveredOn : String
  totalDaysRested : ℚ
  lifetimeRemarks : String
  lifetimeRemarksFrom : String
  numberOfEntries : Int
  applicantName : Option String
  employeeName : Option String
  rawRow : List (String × String)
  deriving DecidableEq, Repr

/-! ### `buildJDAHierarchy` (mathUtils.ts) -/

/-- Ticket entry of the four-level hierarchy. -/
structure JDATicket where
  ticketId : String
  stepOwnerName : String
  stepOwnerRole : String
  remarkOriginal : String
  remarkEnglishSummary : String
  detectedCategory : String
  daysRested : ℚ
  deriving DecidableEq, Repr

/-- Service level of the hierarchy. -/
structure JDAService where
  name : String
  serviceLevelInsight : String
  tickets : List JDATicket
  deriving DecidableEq, Repr

/-- Parent-service level of the hierarchy. -/
structure JDAParentService where
  name : String
  services : List JDAService
  deriving DecidableEq, Repr

/-- Department level of the hierarchy. -/
structure JDADepartment where
  name : String
  parentServices : List JDAParentService
  deriving DecidableEq, Repr

/-- The whole four-level hierarchy. -/
structure JDAIntelligence where
  departments : List JDADepartment
  deriving DecidableEq, Repr

/-- The three-level grouping pass of `buildJDAHierarchy`: department to
parent service to service to steps, preserving insertion order. -/
def jdaGroup (steps : List WorkflowStep) :
    List (String × List (String × List (String × List WorkflowStep))) :=
  steps.foldl (fun m step =>
    let deptName := jsOrS step.departmentName "General"
    let parentService := jsOrS step.parentServiceName "General"
    let service := jsOrS step.serviceName "General"
    let m := if alistHas m deptName then m else alistAppend m deptName []
    alistModify m deptName (fun parentMap =>
      let parentMap :=
        if alistHas parentMap parentService then parentMap
        else alistAppend parentMap parentService []
      alistModify parentMap parentService (fun serviceMap =>
        let serviceMap :=
          if alistHas serviceMap service then serviceMap
          else alistAppend serviceMap service []
        alistModify serviceMap service (fun l => l ++ [step])))) []

/-- `buildJDAHierarchy(steps)` from mathUtils.ts. -/
def buildJDAHierarchy (steps : List WorkflowStep) : JDAIntelligence :=
  { departments :=
      (jdaGroup steps).map (fun dept =>
        { name := dept.1,
          parentServices :=
            dept.2.map (fun pServ =>
              { name := pServ.1,
                services :=
                  pServ.2.map (fun serv =>
                    let tickets := serv.2
                    let avgDays := (tickets.map (fun t => t.totalDaysRested)).sum / (tickets.length : ℚ)
                    let serviceInsight :=
                      "Avg Processing: " ++ jsToFixed1Str avgDays ++ " days. Total Tickets: " ++
                        natDigitsStr tickets.length
                    { name := serv.1,
                      serviceLevelInsight := serviceInsight,
                      tickets :=
                        tickets.map (fun t =>
                          { ticketId := t.ticketId,
                            stepOwnerName := jsOrOptS t.employeeName "Unknown",
                            stepOwnerRole := t.post,
                            remarkOriginal := jsOrS t.lifetimeRemarksFrom "No remarks",
                            remarkEnglishSummary := jsOrS t.lifetimeRemarksFrom "No remarks",
                            detectedCategory :=
                              ruleBasedDelayClassification (jsOrS t.lifetimeRemarksFrom ""),
                            daysRested := t.totalDaysRested }) }) }) }) }

/-! ### Statistics engine (`analyzeWorkflowData` in mathUtils.ts, claims C2, C7) -/

/-- The private `mean` of mathUtils.ts (same body as `calculateMean`). -/
def mean (values : List ℚ) : ℚ :=
  if values.length = 0 then 0 else values.sum / (values.length : ℚ)

/-- The private `standardDeviation`: square root of the mean squared
deviation; `Math.sqrt` is passed in as `sqrt` (see the file header). -/
def standardDeviation (sqrt : ℚ → ℚ) (values : List ℚ) : ℚ :=
  if values.length = 0 then 0
  else sqrt (mean (values.map (fun v => (v - mean values) ^ 2)))

/-- The private `zScore`: 0 whenever the standard deviation is 0 (claim C7). -/
def zScore (value avg stdDev : ℚ) : ℚ :=
  if stdDev = 0 then 0 else (value - avg) / stdDev

/-- `criticalBottleneck` entry. -/
structure CriticalBottleneck where
  role : String
  cases : Nat
  avgDelay : ℚ
  thresholdExceeded : ℚ
  deriving DecidableEq, Repr

/-- `topPerformers` entry. -/
structure TopPerformer where
  name : String
  role : String
  tasks : Nat
  avgTime : ℚ
  deriving DecidableEq, Repr

/-- `riskApplications` entry. -/
structure RiskApplication where
  id : String
  service : String
  zone : String
  role : String
  dueDate : String
  risk : Int
  category : String
  delay : ℚ
  zScore : ℚ
  remarks : String
  lastActionBy : String
  applicantName : Option String
  rawRow : List (String × String)
  isApplicantAction : Bool
  deriving DecidableEq, Repr

/-- `zonePerformance` entry. -/
structure ZonePerf where
  name : String
  onTime : ℚ
  avgTime : ℚ
  deriving DecidableEq, Repr

/-- `deptPerformance` entry. -/
structure DeptPerf where
  name : String
  avgTime : ℚ
  deriving DecidableEq, Repr

/-- A remark text with its frequency. -/
structure RemarkCount where
  text : String
  count : Nat
  deriving DecidableEq, Repr

/-- A behavioural red flag. -/
structure RedFlag where
  type : String
  entity : String
  evidence : String
  severity : String
  deriving DecidableEq, Repr

/-- Per-employee remark profile. -/
structure EmployeeRemarkProfile where
  employeeName : String
  remarks : List RemarkCount
  topDelayReason : String
  anomalyScore : ℚ
  deriving DecidableEq, Repr

/-- A global remark topic with its frequency. -/
structure GlobalTopic where
  topic : String
  count : Nat
  sentiment : String
  deriving DecidableEq, Repr

/-- The `behaviorMetrics` sub-object. -/
structure BehaviorMetrics where
  employeeRemarks : List EmployeeRemarkProfile
  redFlags : List RedFlag
  globalTopics : List GlobalTopic
  deriving DecidableEq, Repr

/-- The `ProjectStatistics` record returned by `analyzeWorkflowData`. -/
structure ProjectStatistics where
  totalWorkflowSteps : Nat
  totalTickets : Nat
  avgDaysRested : ℚ
  maxDaysRested : JsNumber
  minDaysRested : JsNumber
  stdDaysRested : ℚ
  completedTickets : Nat
  completionRate : ℚ
  anomalyCount : Nat
  criticalBottleneck : Option CriticalBottleneck
  topPerformers : List TopPerformer
  riskApplications : List RiskApplication
  zonePerformance : List ZonePerf
  deptPerformance : List DeptPerf
  behaviorMetrics : BehaviorMetrics
  jdaHierarchy : JDAIntelligence
  deriving DecidableEq, Repr

/-- Per-actor performance accumulator (`employeePerformance` map values). -/
structure PerfAcc where
  tasks : Nat
  totalTime : ℚ
  role : String
  deriving DecidableEq, Repr

/-- Per-zone accumulator (`zonePerformance` map values). -/
structure ZoneAcc where
  totalSteps : Nat
  completedSteps : Nat
  totalTime : ℚ
  deriving DecidableEq, Repr

/-- Per-role accumulator (`deptPerformance` map values). -/
structure DeptAcc where
  totalTime : ℚ
  count : Nat
  deriving DecidableEq, Repr

/-- The days-rested values of the steps. -/
def awdDaysRested (steps : List WorkflowStep) : List ℚ :=
  steps.map (fun s => s.totalDaysRested)

/-- `avgDaysRested = parseFloat(mean(daysRested).toFixed(2))`. -/
def awdAvgDaysRested (steps : List WorkflowStep) : ℚ :=
  jsToFixedNum 2 (mean (awdDaysRested steps))

/-- `stdDaysRested = parseFloat(standardDeviation(daysRested).toFixed(2))`. -/
def awdStdDaysRested (sqrt : ℚ → ℚ) (steps : List WorkflowStep) : ℚ :=
  jsToFixedNum 2 (standardDeviation sqrt (awdDaysRested steps))

/-- The anomaly filter: steps whose z-score has absolute value above 3. -/
def awdAnomalies (sqrt : ℚ → ℚ) (steps : List WorkflowStep) : List WorkflowStep :=
  steps.filter (fun s =>
    decide (3 < |zScore s.totalDaysRested (awdAvgDaysRested steps) (awdStdDaysRested sqrt steps)|))

/-- The denylist of roles excluded from bottleneck detection. -/
def excludedRoles : List String := ["APPLICANT", "CITIZEN", "SYSTEM", "UNKNOWN"]

/-- The `roleDelays` map: per role, the list of days-rested samples; a role is
only admitted while absent and not denylisted (after upper-casing and trim). -/
def awdRoleDelays (steps : List WorkflowStep) : List (String × List ℚ) :=
  steps.foldl (fun m step =>
    let role := jsTrim (jsToUpper step.post)
    let m :=
      if ¬ alistHas m step.post ∧ role ∉ excludedRoles then alistAppend m step.post []
      else m
    if alistHas m step.post then
      alistModify m step.post (fun l => l ++ [step.totalDaysRested])
    else m) []

/-- The bottleneck fold: keep the admissible role (more than 5 samples) with
the highest average delay, reporting overrun of the fixed 5-day threshold. -/
def awdCriticalBottleneck (steps : List WorkflowStep) : Option CriticalBottleneck :=
  ((awdRoleDelays steps).foldl (fun acc entry =>
    let avgDelay := mean entry.2
    if avgDelay > acc.1 ∧ entry.2.length > 5 then
      (avgDelay, some
        { role := entry.1,
          cases := entry.2.length,
          avgDelay := jsToFixedNum 1 avgDelay,
          thresholdExceeded := jsToFixedNum 0 (((avgDelay - 5) / 5) * 100) })
    else acc) ((0 : ℚ), (none : Option CriticalBottleneck))).2

/-- The denylist of actor names excluded from the top-performer ranking
(substring match after upper-casing). -/
def excludedEmployees : List String :=
  ["APPLICANT", "CITIZEN", "SYSTEM", "UNKNOWN", "Admin", "Administrator"]

/-- The `employeePerformance` map keyed by remark author. -/
def awdEmployeePerformance (steps : List WorkflowStep) : List (String × PerfAcc) :=
  steps.foldl (fun m step =>
    let employeeName := jsOrS step.lifetimeRemarksFrom "Unknown"
    let normalizedName := jsTrim (jsToUpper employeeName)
    if excludedEmployees.any (fun ex => jsIncludes normalizedName (jsToUpper ex)) then m
    else
      let m :=
        if alistHas m employeeName then m
        else alistAppend m employeeName { tasks := 0, totalTime := 0, role := step.post }
      alistModify m employeeName (fun p =>
        { p with tasks := p.tasks + 1, totalTime := p.totalTime + step.totalDaysRested })) []

/-- `topPerformers`: at least 10 tasks, ranked ascending by average time,
top 5. -/
def awdTopPerformers (steps : List WorkflowStep) : List TopPerformer :=
  ((((awdEmployeePerformance steps).map (fun e =>
      { name := e.1,
        role := e.2.role,
        tasks := e.2.tasks,
        avgTime := jsToFixedNum 1 (e.2.totalTime / (e.2.tasks : ℚ)) : TopPerformer })).filter
    (fun p => decide (10 ≤ p.tasks))).foldl
      (fun acc a => stableInsert (fun x y => decide (x.avgTime < y.avgTime)) a acc) []).take 5

/-- `riskApplications`: per-step risk records with applicant bias, relaxed
|z| > 1.5 filter, applicant-priority ordering, capped at 15. -/
def awdRiskApplications (sqrt : ℚ → ℚ) (steps : List WorkflowStep) : List RiskApplication :=
  let mapped := steps.map (fun step =>
    let z := zScore step.totalDaysRested (awdAvgDaysRested steps) (awdStdDaysRested sqrt steps)
    let role := jsToUpper (jsOrS step.lifetimeRemarksFrom "")
    let isApplicant := jsIncludes role "APPLICANT" || jsIncludes role "CITIZEN"
    { id := step.ticketId,
      service := step.serviceName,
      zone := step.zoneId,
      role := step.post,
      dueDate := step.applicationDate,
      risk := min 100 (max 0 (jsMathRound ((|z| / 10) * 100) + (if isApplicant then 20 else 0))),
      category := if |z| > 10 then "Critical" else if |z| > 5 then "High" else "Medium",
      delay := step.totalDaysRested,
      zScore := jsToFixedNum 2 z,
      remarks := step.lifetimeRemarks,
      lastActionBy := step.lifetimeRemarksFrom,
      applicantName := step.applicantName,
      rawRow := step.rawRow,
      isApplicantAction := isApplicant : RiskApplication })
  let filtered := mapped.filter (fun app =>
    decide ((3 : ℚ) / 2 < |app.zScore|) || app.isApplicantAction)
  (stableSortBy (fun a b =>
    if a.isApplicantAction ∧ ¬ b.isApplicantAction then true
    else if ¬ a.isApplicantAction ∧ b.isApplicantAction then false
    else decide (b.zScore < a.zScore)) filtered).take 15

/-- The `zonePerformance` accumulation map. -/
def awdZoneAcc (steps : List WorkflowStep) : List (String × ZoneAcc) :=
  steps.foldl (fun m step =>
    let m :=
      if alistHas m step.zoneId then m
      else alistAppend m step.zoneId { totalSteps := 0, completedSteps := 0, totalTime := 0 }
    alistModify m step.zoneId (fun p =>
      { totalSteps := p.totalSteps + 1,
        completedSteps := p.completedSteps + (if step.deliveredOn ≠ "" then 1 else 0),
        totalTime := p.totalTime + step.totalDaysRested })) []

/-- `zonePerformance`: on-time percentage and average time per zone,
descending by on-time rate, top 6. -/
def awdZoneData (steps : List WorkflowStep) : List ZonePerf :=
  (stableSortBy (fun a b => decide (b.onTime < a.onTime))
    ((awdZoneAcc steps).map (fun e =>
      { name := e.1,
        onTime := jsToFixedNum 1 (((e.2.completedSteps : ℚ) / (e.2.totalSteps : ℚ)) * 100),
        avgTime := jsToFixedNum 2 (e.2.totalTime / (e.2.totalSteps : ℚ)) : ZonePerf }))).take 6

/-- The `deptPerformance` accumulation map (keyed by role). -/
def awdDeptAcc (steps : List WorkflowStep) : List (String × DeptAcc) :=
  steps.foldl (fun m step =>
    let m :=
      if alistHas m step.post then m
      else alistAppend m step.post { totalTime := 0, count := 0 }
    alistModify m step.post (fun p =>
      { totalTime := p.totalTime + step.totalDaysRested, count := p.count + 1 })) []

/-- `deptPerformance`: positive average delays per role, descending, top 5. -/
def awdDeptData (steps : List WorkflowStep) : List DeptPerf :=
  (stableSortBy (fun a b => decide (b.avgTime < a.avgTime))
    (((awdDeptAcc steps).map (fun e =>
      { name := e.1,
        avgTime := jsToFixedNum 2 (e.2.totalTime / (e.2.count : ℚ)) : DeptPerf })).filter
      (fun d => decide ((0 : ℚ) < d.avgTime)))).take 5

/-- The `employeeRemarksMap`: per admitted author, remark-text frequencies. -/
def awdEmployeeRemarksMap (steps : List WorkflowStep) :
    List (String × List (String × Nat)) :=
  steps.foldl (fun m step =>
    let name := jsOrS step.lifetimeRemarksFrom "Unknown"
    let remark := jsTrim step.lifetimeRemarks
    if remark ≠ "" ∧ name ≠ "Unknown" ∧ name ≠ "APPLICANT" then
      let m := if alistHas m name then m else alistAppend m name []
      alistModify m name (fun remarks =>
        if alistHas remarks remark then alistModify remarks remark (fun c => c + 1)
        else alistAppend remarks remark 1)
    else m) []

/-- `topic.charAt(0).toUpperCase() + topic.slice(1)`. -/
def capitalizeFirst (s : String) : String :=
  match s.data with
  | [] => ""
  | c :: rest => ⟨jsToUpperChar c :: rest⟩

/-- The stop-word set of the global topic extraction. -/
def stopWords : List String :=
  ["the", "and", "is", "to", "in", "of", "for", "with", "on", "at", "by", "from",
   "a", "an", "this", "that", "it", "as", "be", "are", "was", "were", "has", "have",
   "had", "been", "will", "shall", "may", "can", "should", "would", "could", "not",
   "no", "yes", "ok", "okay", "done", "remarks", "remark", "issue", "issues", "case",
   "file", "application"]

/-- The behavioural pass: per-author profiles and the red flags pushed while
building them, in map iteration order. -/
def awdBehavior (sqrt : ℚ → ℚ) (steps : List WorkflowStep) :
    List EmployeeRemarkProfile × List RedFlag :=
  (awdEmployeeRemarksMap steps).foldl (fun acc e =>
    let name := e.1
    let sortedRemarks := stableSortBy (fun a b => decide (b.count < a.count))
      (e.2.map (fun r => { text := r.1, count := r.2 : RemarkCount }))
    let totalRemarks := (sortedRemarks.map (fun r => r.count)).sum
    let topRemark := sortedRemarks.head?
    let repetitionRate : ℚ :=
      match topRemark with
      | some tr => (tr.count : ℚ) / (totalRemarks : ℚ)
      | none => 0
    let perf := alistGet? (awdEmployeePerformance steps) name
    let avgDelay : ℚ :=
      match perf with
      | some p => p.totalTime / (p.tasks : ℚ)
      | none => 0
    let delayOutlier :=
      decide (awdAvgDaysRested steps + awdStdDaysRested sqrt steps < avgDelay)
    let anomalyScore :=
      jsToFixedNum 2 (min 1 (repetitionRate * (7/10) + (if delayOutlier then (3/10 : ℚ) else 0)))
    let flags1 :=
      if repetitionRate > 6/10 ∧ totalRemarks > 5 then
        acc.2 ++ [{ type := "REPEATED_REMARK",
                    entity := name,
                    evidence := "Uses same remark \"" ++ ((topRemark.map (fun r => r.text)).getD "") ++
                      "\" for " ++ toString (jsMathRound (repetitionRate * 100)) ++ "% of cases.",
                    severity := if repetitionRate > 8/10 then "CRITICAL" else "HIGH" : RedFlag }]
      else acc.2
    let flags2 :=
      if delayOutlier ∧ ((perf.map (fun p => p.tasks)).getD 0) > 5 then
        flags1 ++ [{ type := "UNUSUAL_DELAY",
                     entity := name,
                     evidence := "Average processing time (" ++ jsToFixed1Str avgDelay ++
                       "d) is significantly above average.",
                     severity :=
                       if avgDelay > awdAvgDaysRested steps * 2 then "CRITICAL" else "HIGH" : RedFlag }]
      else flags1
    (acc.1 ++ [{ employeeName := name,
                 remarks := sortedRemarks.take 3,
                 topDelayReason := (topRemark.map (fun r => r.text)).getD "Standard Processing",
                 anomalyScore := anomalyScore : EmployeeRemarkProfile }], flags2)) ([], [])

/-- The global topic frequency extraction, top 15 by count. -/
def awdGlobalTopics (steps : List WorkflowStep) : List GlobalTopic :=
  let topicMap := steps.foldl (fun m step =>
    let text := jsToLower (jsOrS step.lifetimeRemarks (" " ++ step.lifetimeRemarksFrom))
    (jsSplitSeps text).foldl (fun m w =>
      if w.length > 3 ∧ w ∉ stopWords ∧ ¬ isAllDigits w then
        (if alistHas m w then alistModify m w (fun c => c + 1) else alistAppend m w 1)
      else m) m) []
  (stableSortBy (fun a b => decide (b.count < a.count))
    (topicMap.map (fun e =>
      { topic := capitalizeFirst e.1, count := e.2, sentiment := "neutral" : GlobalTopic }))).take 15

/-- The distinct ticket identifiers that have a delivery date in some step. -/
def awdCompletedTickets (steps : List WorkflowStep) : Nat :=
  (((steps.filter (fun s => decide (s.deliveredOn ≠ "" ∧ s.deliveredOn ≠ "NULL"))).map
    (fun s => s.ticketId)).dedup).length

/-- `analyzeWorkflowData(workflowSteps)` from mathUtils.ts, parameterised by
the square-root function (see the file header). -/
def analyzeWorkflowData (sqrt : ℚ → ℚ) (workflowSteps : List WorkflowStep) : ProjectStatistics :=
  let totalTickets := ((workflowSteps.map (fun s => s.ticketId)).dedup).length
  let completedTickets := awdCompletedTickets workflowSteps
  { totalWorkflowSteps := workflowSteps.length,
    totalTickets := totalTickets,
    avgDaysRested := awdAvgDaysRested workflowSteps,
    maxDaysRested := jsMaxList (awdDaysRested workflowSteps),
    minDaysRested := jsMinList (awdDaysRested workflowSteps),
    stdDaysRested := awdStdDaysRested sqrt workflowSteps,
    completedTickets := completedTickets,
    completionRate :=
      if 0 < totalTickets then
        jsToFixedNum 1 (((completedTickets : ℚ) / (totalTickets : ℚ)) * 100)
      else 0,
    anomalyCount := (awdAnomalies sqrt workflowSteps).length,
    criticalBottleneck := awdCriticalBottleneck workflowSteps,
    topPerformers := awdTopPerformers workflowSteps,
    riskApplications := awdRiskApplications sqrt workflowSteps,
    zonePerformance := awdZoneData workflowSteps,
    deptPerformance := awdDeptData workflowSteps,
    behaviorMetrics :=
      { employeeRemarks := (awdBehavior sqrt workflowSteps).1,
        redFlags := ((awdBehavior sqrt workflowSteps).2).take 10,
        globalTopics := awdGlobalTopics workflowSteps },
    jdaHierarchy := buildJDAHierarchy workflowSteps }

/-! ### Lemmas for the statistics claims -/

theorem roundHalfAway_zero : roundHalfAway 0 = 0 := by
  rw [roundHalfAway, if_neg (by norm_num)]
  norm_num

theorem jsToFixedNum_zero (d : Nat) : jsToFixedNum d 0 = 0 := by
  simp [jsToFixedNum, roundHalfAway_zero]

theorem mean_const (l : List ℚ) (c : ℚ) (h : ∀ x ∈ l, x = c) (hne : l ≠ []) :
    mean l = c := by
  have hsum : l.sum = (l.length : ℚ) * c := by
    induction l with
    | nil => simp
    | cons x xs ih =>
      have hx : x = c := h x (by simp)
      have hxs : xs.sum = (xs.length : ℚ) * c := by
        rcases xs with - | ⟨y, ys⟩
        · simp
        · exact ih (fun z hz => h z (by simp [hz])) (by simp)
      simp [hx, hxs]
      push_cast
      ring
  have hlen : l.length ≠ 0 := by simpa [List.length_eq_zero] using hne
  have hlq : (l.length : ℚ) ≠ 0 := by exact_mod_cast hlen
  rw [mean, if_neg hlen, hsum]
  field_simp

theorem standardDeviation_const (sqrt : ℚ → ℚ) (hsqrt : sqrt 0 = 0)
    (l : List ℚ) (c : ℚ) (h : ∀ x ∈ l, x = c) :
    standardDeviation sqrt l = 0 := by
  rcases eq_or_ne l [] with rfl | hne
  · simp [standardDeviation]
  · have hlen : l.length ≠ 0 := by simpa [List.length_eq_zero] using hne
    rw [standardDeviation, if_neg hlen]
    have hm : mean l = c := mean_const l c h hne
    have hdiff : ∀ y ∈ l.map (fun v => (v - mean l) ^ 2), y = 0 := by
      intro y hy
      rcases List.mem_map.mp hy with ⟨v, hv, rfl⟩
      rw [hm, h v hv]
      ring
    have hmapne : l.map (fun v => (v - mean l) ^ 2) ≠ [] := by
      simpa using hne
    rw [mean_const _ 0 hdiff hmapne, hsqrt]

/-- A sample workflow step used in concrete witnesses. -/
def sampleStep (t : String) (days : ℚ) : WorkflowStep :=
  { ticketId := t, serviceName := "S", parentServiceName := "PS", departmentName := "D",
    post := "CLERK", zoneId := "Z1", applicationDate := "01/01/2024", deliveredOn := "",
    totalDaysRested := days, lifetimeRemarks := "Verification Pending",
    lifetimeRemarksFrom := "Officer A", numberOfEntries := 1, applicantName := none,
    employeeName := none, rawRow := [] }

/-- C2 (amended): on the empty input the engine returns normally; mean,
standard deviation, completion rate and anomaly count are 0 and every ranked
collection is empty, but the maximum of days-rested is -Infinity and the
minimum is +Infinity (JS `Math.max()`/`Math.min()` with no arguments),
not 0 as claimed. -/
theorem analyzeWorkflowData_empty_neutral (sqrt : ℚ → ℚ) :
    (analyzeWorkflowData sqrt []).avgDaysRested = 0 ∧
    (analyzeWorkflowData sqrt []).stdDaysRested = 0 ∧
    (analyzeWorkflowData sqrt []).completionRate = 0 ∧
    (analyzeWorkflowData sqrt []).anomalyCount = 0 ∧
    (analyzeWorkflowData sqrt []).totalWorkflowSteps = 0 ∧
    (analyzeWorkflowData sqrt []).totalTickets = 0 ∧
    (analyzeWorkflowData sqrt []).completedTickets = 0 ∧
    (analyzeWorkflowData sqrt []).maxDaysRested = JsNumber.negInf ∧
    (analyzeWorkflowData sqrt []).minDaysRested = JsNumber.posInf ∧
    (analyzeWorkflowData sqrt []).criticalBottleneck = none ∧
    (analyzeWorkflowData sqrt []).topPerformers = [] ∧
    (analyzeWorkflowData sqrt []).riskApplications = [] ∧
    (analyzeWorkflowData sqrt []).zonePerformance = [] ∧
    (analyzeWorkflowData sqrt []).deptPerformance = [] ∧
    (analyzeWorkflowData sqrt []).behaviorMetrics.employeeRemarks = [] ∧
    (analyzeWorkflowData sqrt []).behaviorMetrics.redFlags = [] ∧
    (analyzeWorkflowData sqrt []).behaviorMetrics.globalTopics = [] ∧
    (analyzeWorkflowData sqrt []).jdaHierarchy = ⟨[]⟩ := by
  simp [analyzeWorkflowData, awdAvgDaysRested, awdStdDaysRested, awdDaysRested, mean,
    standardDeviation, jsToFixedNum_zero, awdAnomalies, awdCompletedTickets,
    awdCriticalBottleneck, awdRoleDelays, awdTopPerformers, awdEmployeePerformance,
    awdRiskApplications, stableSortBy, awdZoneData, awdZoneAcc, awdDeptData, awdDeptAcc,
    awdBehavior, awdEmployeeRemarksMap, awdGlobalTopics, buildJDAHierarchy, jdaGroup,
    jsMaxList, jsMinList]

/-- C2 counterexample: on the empty input the maximum and minimum of
days-rested are the infinities, not the neutral zero the claim asserts. -/
theorem analyzeWorkflowData_empty_minmax_counterexample :
    (analyzeWorkflowData (fun _ => 0) []).maxDaysRested = JsNumber.negInf ∧
    (analyzeWorkflowData (fun _ => 0) []).minDaysRested = JsNumber.posInf ∧
    JsNumber.negInf ≠ JsNumber.finite 0 ∧ JsNumber.posInf ≠ JsNumber.finite 0 := by
  refine ⟨?_, ?_, by simp, by simp⟩ <;>
    simp [analyzeWorkflowData, awdDaysRested, jsMaxList, jsMinList]

/-- C7: a z-score with standard deviation 0 is 0 by definition; a step is in
the anomaly list exactly when the absolute z-score exceeds 3; consequently a
dataset with zero variance (all days-rested equal) yields anomaly count 0. -/
theorem zScore_zero_std_and_zero_variance_no_anomaly :
    (∀ value avg : ℚ, zScore value avg 0 = 0) ∧
    (∀ (sqrt : ℚ → ℚ) (steps : List WorkflowStep) (s : WorkflowStep),
      s ∈ awdAnomalies sqrt steps ↔
        s ∈ steps ∧
          3 < |zScore s.totalDaysRested (awdAvgDaysRested steps) (awdStdDaysRested sqrt steps)|) ∧
    (∀ (sqrt : ℚ → ℚ) (steps : List WorkflowStep) (c : ℚ),
      sqrt 0 = 0 → (∀ s ∈ steps, s.totalDaysRested = c) →
      (analyzeWorkflowData sqrt steps).anomalyCount = 0) := by
  refine ⟨?_, ?_, ?_⟩
  · intro v a
    simp [zScore]
  · intro sqrt steps s
    simp [awdAnomalies, List.mem_filter]
  · intro sqrt steps c hsqrt hconst
    have hstd : awdStdDaysRested sqrt steps = 0 := by
      rw [awdStdDaysRested,
        standardDeviation_const sqrt hsqrt (awdDaysRested steps) c ?hall]
      · exact jsToFixedNum_zero 2
      case hall =>
        intro x hx
        rcases List.mem_map.mp hx with ⟨s, hs, rfl⟩
        exact hconst s hs
    have hcount : (analyzeWorkflowData sqrt steps).anomalyCount =
        (awdAnomalies sqrt steps).length := by
      simp [analyzeWorkflowData]
    rw [hcount, List.length_eq_zero, awdAnomalies, List.filter_eq_nil_iff]
    intro s hs
    simp [zScore, hstd]

/-- C7 witness: with two steps both resting 5 days (zero variance) and a
square-root model satisfying sqrt 0 = 0, no anomaly is counted, and the
z-score at zero standard deviation is 0. -/
theorem zScore_zero_std_and_zero_variance_no_anomaly_witness :
    zScore 7 4 0 = 0 ∧
      (analyzeWorkflowData (fun _ => 0) [sampleStep "T1" 5, sampleStep "T2" 5]).anomalyCount = 0 := by
  have h := zScore_zero_std_and_zero_variance_no_anomaly
  refine ⟨h.1 7 4, ?_⟩
  refine h.2.2 (fun _ => 0) _ 5 rfl ?_
  intro s hs
  simp only [List.mem_cons, List.not_mem_nil, or_false] at hs
  rcases hs with rfl | rfl <;> rfl

/-! ### JS values (JSON plus `undefined`) and truthiness -/

/-- A JS value as produced by `JSON.parse` or the relaxed evaluator, with the
JS distinction between `undefined` and `null`. -/
inductive JsValue where
  | undef
  | null
  | bool (b : Bool)
  | num (q : ℚ)
  | str (s : String)
  | arr (elems : List JsValue)
  | obj (fields : List (String × JsValue))
  deriving Repr

/-- JS truthiness. -/
def truthy : JsValue → Bool
  | JsValue.undef => false
  | JsValue.null => false
  | JsValue.bool b => b
  | JsValue.num q => decide (q ≠ 0)
  | JsValue.str s => decide (s ≠ "")
  | JsValue.arr _ => true
  | JsValue.obj _ => true

/-- JS property access `v[k]` on a parsed value: `undefined` when absent or
when the receiver is not an object (the code only dereferences truthy
receivers); for duplicate keys the later assignment wins. -/
def jsGet : JsValue → String → JsValue
  | JsValue.obj fields, k =>
    match fields.reverse.find? (fun e => e.1 = k) with
    | some e => e.2
    | none => JsValue.undef
  | _, _ => JsValue.undef

/-- JS `a || b` on values. -/
def jsOrV (a b : JsValue) : JsValue := if truthy a then a else b

/-- JS optional chain `v?.k`. -/
def jsGetOpt (v : JsValue) (k : String) : JsValue :=
  match v with
  | JsValue.undef => JsValue.undef
  | JsValue.null => JsValue.undef
  | _ => jsGet v k

/-! ### Strict JSON parsing (the model of `JSON.parse`) -/

/-- JSON insignificant whitespace. -/
def skipJsonWs (l : List Char) : List Char :=
  l.dropWhile (fun c => c = ' ' ∨ c = '\t' ∨ c = '\n' ∨ c = '\r')

/-- Hexadecimal digit value. -/
def hexDigitVal? (c : Char) : Option Nat :=
  if '0' ≤ c ∧ c ≤ '9' then some (c.toNat - 48)
  else if 'a' ≤ c ∧ c ≤ 'f' then some (c.toNat - 87)
  else if 'A' ≤ c ∧ c ≤ 'F' then some (c.toNat - 70)
  else none

/-- Body of a JSON string after the opening quote: returns the decoded
characters and the remainder after the closing quote.  Lone surrogates from
a unicode escape are replaced (Lean characters are scalar values).  The fuel
is at least the input length at every call site. -/
def parseJsonStringBody : Nat → List Char → Option (List Char × List Char)
  | 0, _ => none
  | _, [] => none
  | Nat.succ fuel, c :: rest =>
    if c = '"' then some ([], rest)
    else if c = '\\' then
      match rest with
      | [] => none
      | e :: rest2 =>
        let dec : Option (Char × List Char) :=
          if e = '"' then some ('"', rest2)
          else if e = '\\' then some ('\\', rest2)
          else if e = '/' then some ('/', rest2)
          else if e = 'b' then some (Char.ofNat 8, rest2)
          else if e = 'f' then some (Char.ofNat 12, rest2)
          else if e = 'n' then some ('\n', rest2)
          else if e = 'r' then some ('\r', rest2)
          else if e = 't' then some ('\t', rest2)
          else if e = 'u' then
            match rest2 with
            | h1 :: h2 :: h3 :: h4 :: rest3 =>
              match hexDigitVal? h1, hexDigitVal? h2, hexDigitVal? h3, hexDigitVal? h4 with
              | some a, some b, some c2, some d =>
                let n := ((a * 16 + b) * 16 + c2) * 16 + d
                if 0xd800 ≤ n ∧ n < 0xe000 then some (Char.ofNat 0xfffd, rest3)
                else some (Char.ofNat n, rest3)
              | _, _, _, _ => none
            | _ => none
          else none
        match dec with
        | none => none
        | some (ch, rest3) =>
          match parseJsonStringBody fuel rest3 with
          | some (chars, rem) => some (ch :: chars, rem)
          | none => none
    else if c.toNat < 0x20 then none
    else
      match parseJsonStringBody fuel rest with
      | some (chars, rem) => some (c :: chars, rem)
      | none => none

/-- Digit run. -/
def takeDigits (l : List Char) : List Char × List Char :=
  (l.takeWhile (fun c => '0' ≤ c ∧ c ≤ '9'), l.dropWhile (fun c => '0' ≤ c ∧ c ≤ '9'))

/-- Natural number denoted by a digit run. -/
def digitsToNat (l : List Char) : Nat :=
  l.foldl (fun acc c => acc * 10 + (c.toNat - 48)) 0

/-- A strict JSON number (integer part without leading zeros, optional
fraction and exponent), as an exact rational. -/
def parseJsonNumber (l : List Char) : Option (ℚ × List Char) :=
  let (neg, l1) :=
    match l with
    | '-' :: rest => (true, rest)
    | _ => (false, l)
  match l1 with
  | [] => none
  | c :: _ =>
    if ¬ ('0' ≤ c ∧ c ≤ '9') then none
    else
      let (intDigits, l2) := takeDigits l1
      if intDigits.length > 1 ∧ intDigits.head? = some '0' then none
      else
        let (fracDigits, l3) :=
          match l2 with
          | '.' :: rest =>
            let (ds, r) := takeDigits rest
            (ds, r)
          | _ => ([], l2)
        if (match l2 with | '.' :: _ => fracDigits.isEmpty | _ => false) then none
        else
          let (expVal, l4) : Option Int × List Char :=
            match l3 with
            | e :: rest =>
              if e = 'e' ∨ e = 'E' then
                let (esign, rest2) :=
                  match rest with
                  | '+' :: r => ((1 : Int), r)
                  | '-' :: r => ((-1 : Int), r)
                  | _ => ((1 : Int), rest)
                let (eds, rest3) := takeDigits rest2
                if eds.isEmpty then (none, l3)
                else (some (esign * (digitsToNat eds : Int)), rest3)
              else (some 0, l3)
            | [] => (some 0, l3)
          match expVal with
          | none => none
          | some ex =>
            let mantissa : ℚ := (digitsToNat (intDigits ++ fracDigits) : ℚ)
            let scale : Int := ex - (fracDigits.length : Int)
            let mag : ℚ := mantissa * (10 : ℚ) ^ scale
            some ((if neg then -mag else mag), l4)

mutual

/-- A strict JSON value; fuel bounds the recursion depth and is at least
twice the input length at every call site. -/
def parseJsonValue : Nat → List Char → Option (JsValue × List Char)
  | 0, _ => none
  | Nat.succ fuel, l =>
    let l := skipJsonWs l
    match l with
    | [] => none
    | c :: rest =>
      if c = 'n' then
        if ['u', 'l', 'l'].isPrefixOf rest then some (JsValue.null, rest.drop 3) else none
      else if c = 't' then
        if ['r', 'u', 'e'].isPrefixOf rest then some (JsValue.bool true, rest.drop 3) else none
      else if c = 'f' then
        if ['a', 'l', 's', 'e'].isPrefixOf rest then some (JsValue.bool false, rest.drop 4)
        else none
      else if c = '"' then
        match parseJsonStringBody (rest.length + 1) rest with
        | some (chars, rem) => some (JsValue.str ⟨chars⟩, rem)
        | none => none
      else if c = '[' then
        match skipJsonWs rest with
        | ']' :: rest2 => some (JsValue.arr [], rest2)
        | rest2 => match parseJsonArrayItems fuel rest2 with
          | some (elems, rem) => some (JsValue.arr elems, rem)
          | none => none
      else if c = '{' then
        match skipJsonWs rest with
        | '}' :: rest2 => some (JsValue.obj [], rest2)
        | rest2 => match parseJsonObjectItems fuel rest2 with
          | some (fields, rem) => some (JsValue.obj fields, rem)
          | none => none
      else
        match parseJsonNumber l with
        | some (q, rem) => some (JsValue.num q, rem)
        | none => none

/-- Comma-separated JSON array elements up to the closing bracket. -/
def parseJsonArrayItems : Nat → List Char → Option (List JsValue × List Char)
  | 0, _ => none
  | Nat.succ fuel, l =>
    match parseJsonValue fuel l with
    | none => none
    | some (v, rest) =>
      match skipJsonWs rest with
      | ',' :: rest2 =>
        match parseJsonArrayItems fuel rest2 with
        | some (elems, rem) => some (v :: elems, rem)
        | none => none
      | ']' :: rest2 => some ([v], rest2)
      | _ => none

/-- Comma-separated JSON object members up to the closing brace. -/
def parseJsonObjectItems : Nat → List Char → Option (List (String × JsValue) × List Char)
  | 0, _ => none
  | Nat.succ fuel, l =>
    match skipJsonWs l with
    | '"' :: rest =>
      match parseJsonStringBody (rest.length + 1) rest with
      | none => none
      | some (keyChars, rest2) =>
        match skipJsonWs rest2 with
        | ':' :: rest3 =>
          match parseJsonValue fuel rest3 with
          | none => none
          | some (v, rest4) =>
            match skipJsonWs rest4 with
            | ',' :: rest5 =>
              match parseJsonObjectItems fuel rest5 with
              | some (fields, rem) => some ((⟨keyChars⟩, v) :: fields, rem)
              | none => none
            | '}' :: rest5 => some ([(⟨keyChars⟩, v)], rest5)
            | _ => none
        | _ => none
    | _ => none

end

/-- The model of `JSON.parse`: a strict JSON document with nothing but
whitespace after the value; failures model the thrown `SyntaxError`. -/
def jsonParse (s : String) : Except String JsValue :=
  match parseJsonValue (2 * s.length + 2) s.data with
  | some (v, rem) =>
    if (skipJsonWs rem).isEmpty then Except.ok v
    else Except.error "Unexpected token in JSON"
  | none => Except.error "Unexpected end of JSON input"

/-- The `tryParse` helper of `cleanAndParseJSON`: `JSON.parse` with the
exception caught and converted to `null`. -/
def tryParse (s : String) : JsValue :=
  match jsonParse s with
  | Except.ok v => v
  | Except.error _ => JsValue.null

/-! ### The staged textual repairs of `cleanAndParseJSON` (Fixes 0 to 7) -/

/-- The single-quote character (written by code point throughout). -/
def squote : Char := Char.ofNat 39

/-- Decimal digit test (the regex classes `\d` and `[0-9]`). -/
def isDigitChar (c : Char) : Bool := '0' ≤ c ∧ c ≤ '9'

/-- Fix 0: escape a double quote that follows a digit and precedes a
character other than comma, closing brace or closing bracket
(the pattern (\d)"(?=[^,}\]]) replaced by $1\").  The lookahead character is
not consumed. -/
def fix0 : List Char → List Char
  | d :: '"' :: c :: rest =>
    if isDigitChar d ∧ c ≠ ',' ∧ c ≠ '}' ∧ c ≠ ']' then
      d :: '\\' :: '"' :: fix0 (c :: rest)
    else d :: fix0 ('"' :: c :: rest)
  | c :: rest => c :: fix0 rest
  | [] => []

/-- Fix 1: remove a trailing comma before whitespace and a closing brace or
bracket (the pattern ,(\s*[}\]]) replaced by $1).  Fuel-indexed; callers pass
more fuel than the input length. -/
def fix1 : Nat → List Char → List Char
  | 0, l => l
  | _, [] => []
  | Nat.succ fuel, ',' :: rest =>
    (match rest.dropWhile jsIsWs with
     | c :: rest3 =>
       if c = '}' ∨ c = ']' then rest.takeWhile jsIsWs ++ c :: fix1 fuel rest3
       else ',' :: fix1 fuel rest
     | [] => ',' :: fix1 fuel rest)
  | Nat.succ fuel, c :: rest => c :: fix1 fuel rest

/-- Fix 2: after a double quote followed by whitespace and a lookahead double
quote, replace the quote and whitespace by quote-comma-space-quote (the
pattern "\s+(?=") replaced by ", "); the lookahead quote is not consumed. -/
def fix2 : Nat → List Char → List Char
  | 0, l => l
  | _, [] => []
  | Nat.succ fuel, '"' :: rest =>
    if rest.takeWhile jsIsWs ≠ [] ∧ (rest.dropWhile jsIsWs).head? = some '"' then
      '"' :: ',' :: ' ' :: '"' :: fix2 fuel (rest.dropWhile jsIsWs)
    else '"' :: fix2 fuel rest
  | Nat.succ fuel, c :: rest => c :: fix2 fuel rest

/-- Fix 3: insert a comma between a closing and an opening brace separated by
whitespace (the pattern }\s+{ replaced by }, {). -/
def fix3 : Nat → List Char → List Char
  | 0, l => l
  | _, [] => []
  | Nat.succ fuel, '}' :: rest =>
    (match rest.dropWhile jsIsWs with
     | '{' :: rest3 =>
       if rest.takeWhile jsIsWs ≠ [] then '}' :: ',' :: ' ' :: '{' :: fix3 fuel rest3
       else '}' :: fix3 fuel rest
     | _ => '}' :: fix3 fuel rest)
  | Nat.succ fuel, c :: rest => c :: fix3 fuel rest

/-- Fix 4: insert a comma between a closing and an opening bracket separated
by whitespace (the pattern ]\s+\[ replaced by ], [). -/
def fix4 : Nat → List Char → List Char
  | 0, l => l
  | _, [] => []
  | Nat.succ fuel, ']' :: rest =>
    (match rest.dropWhile jsIsWs with
     | '[' :: rest3 =>
       if rest.takeWhile jsIsWs ≠ [] then ']' :: ',' :: ' ' :: '[' :: fix4 fuel rest3
       else ']' :: fix4 fuel rest
     | _ => ']' :: fix4 fuel rest)
  | Nat.succ fuel, c :: rest => c :: fix4 fuel rest

/-- Fix 5: append a comma after a bare digit, true, false or null that is
followed by whitespace and a lookahead double quote (the pattern
([0-9]|true|false|null)\s+(?=") replaced by $1, ).  On a failed match the
scan advances one character, as the regex engine does. -/
def fix5 : Nat → List Char → List Char
  | 0, l => l
  | _, [] => []
  | Nat.succ fuel, c :: rest =>
    if isDigitChar c then
      if rest.takeWhile jsIsWs ≠ [] ∧ (rest.dropWhile jsIsWs).head? = some '"' then
        c :: ',' :: ' ' :: fix5 fuel (rest.dropWhile jsIsWs)
      else c :: fix5 fuel rest
    else if ['t', 'r', 'u', 'e'].isPrefixOf (c :: rest) then
      if (rest.drop 3).takeWhile jsIsWs ≠ [] ∧
          ((rest.drop 3).dropWhile jsIsWs).head? = some '"' then
        't' :: 'r' :: 'u' :: 'e' :: ',' :: ' ' :: fix5 fuel ((rest.drop 3).dropWhile jsIsWs)
      else c :: fix5 fuel rest
    else if ['f', 'a', 'l', 's', 'e'].isPrefixOf (c :: rest) then
      if (rest.drop 4).takeWhile jsIsWs ≠ [] ∧
          ((rest.drop 4).dropWhile jsIsWs).head? = some '"' then
        'f' :: 'a' :: 'l' :: 's' :: 'e' :: ',' :: ' ' :: fix5 fuel ((rest.drop 4).dropWhile jsIsWs)
      else c :: fix5 fuel rest
    else if ['n', 'u', 'l', 'l'].isPrefixOf (c :: rest) then
      if (rest.drop 3).takeWhile jsIsWs ≠ [] ∧
          ((rest.drop 3).dropWhile jsIsWs).head? = some '"' then
        'n' :: 'u' :: 'l' :: 'l' :: ',' :: ' ' :: fix5 fuel ((rest.drop 3).dropWhile jsIsWs)
      else c :: fix5 fuel rest
    else c :: fix5 fuel rest

/-- Fix 6: collapse a duplicated comma (the pattern ,\s*, replaced by ,). -/
def fix6 : Nat → List Char → List Char
  | 0, l => l
  | _, [] => []
  | Nat.succ fuel, ',' :: rest =>
    (match rest.dropWhile jsIsWs with
     | ',' :: rest3 => ',' :: fix6 fuel rest3
     | _ => ',' :: fix6 fuel rest)
  | Nat.succ fuel, c :: rest => c :: fix6 fuel rest

/-- Fix 7: convert a single-quoted value after a colon to a double-quoted one
(the pattern :\s*'([^']*)' replaced by : "$1"). -/
def fix7 : Nat → List Char → List Char
  | 0, l => l
  | _, [] => []
  | Nat.succ fuel, ':' :: rest =>
    (match rest.dropWhile jsIsWs with
     | q :: rest3 =>
       if q = squote then
         (match rest3.dropWhile (fun c => c ≠ squote) with
          | q2 :: rest5 =>
            if q2 = squote then
              ':' :: ' ' :: '"' :: (rest3.takeWhile (fun c => c ≠ squote) ++ '"' :: fix7 fuel rest5)
            else ':' :: fix7 fuel rest
          | [] => ':' :: fix7 fuel rest)
       else ':' :: fix7 fuel rest
     | [] => ':' :: fix7 fuel rest)
  | Nat.succ fuel, c :: rest => c :: fix7 fuel rest

/-! ### Relaxed evaluation (the `new Function('return (' + s + ')')()` path)

The relaxed evaluator is modelled as a lenient literal-expression parser:
single- or double-quoted strings, unquoted object keys, numbers with loose
syntax, trailing commas and the top-level comma operator are accepted; a bare
identifier in value position is a ReferenceError and any other non-literal
construct is a SyntaxError, both modelled as `Except.error`.  NaN and
Infinity are not representable in the rational model and are also treated as
errors. -/

/-- Identifier start character. -/
def isIdentStart (c : Char) : Bool :=
  ('a' ≤ c ∧ c ≤ 'z') ∨ ('A' ≤ c ∧ c ≤ 'Z') ∨ c = '_' ∨ c = '$'

/-- Identifier continuation character. -/
def isIdentChar (c : Char) : Bool := isIdentStart c ∨ isDigitChar c

/-- Body of a lenient string literal after the opening quote: unknown escapes
map to the escaped character, a raw line terminator is a syntax error. -/
def parseRelaxedStringBody (q : Char) : Nat → List Char → Option (List Char × List Char)
  | 0, _ => none
  | _, [] => none
  | Nat.succ fuel, c :: rest =>
    if c = q then some ([], rest)
    else if c = '\n' ∨ c = '\r' then none
    else if c = '\\' then
      match rest with
      | [] => none
      | e :: rest2 =>
        let dec : Option (Option Char × List Char) :=
          if e = 'n' then some (some '\n', rest2)
          else if e = 'r' then some (some '\r', rest2)
          else if e = 't' then some (some '\t', rest2)
          else if e = 'b' then some (some (Char.ofNat 8), rest2)
          else if e = 'f' then some (some (Char.ofNat 12), rest2)
          else if e = 'v' then some (some (Char.ofNat 11), rest2)
          else if e = '0' then some (some (Char.ofNat 0), rest2)
          else if e = '\n' then some (none, rest2)
          else if e = 'x' then
            match rest2 with
            | h1 :: h2 :: rest3 =>
              match hexDigitVal? h1, hexDigitVal? h2 with
              | some a, some b => some (some (Char.ofNat (a * 16 + b)), rest3)
              | _, _ => none
            | _ => none
          else if e = 'u' then
            match rest2 with
            | h1 :: h2 :: h3 :: h4 :: rest3 =>
              match hexDigitVal? h1, hexDigitVal? h2, hexDigitVal? h3, hexDigitVal? h4 with
              | some a, some b, some c2, some d =>
                let n := ((a * 16 + b) * 16 + c2) * 16 + d
                if 0xd800 ≤ n ∧ n < 0xe000 then some (some (Char.ofNat 0xfffd), rest3)
                else some (some (Char.ofNat n), rest3)
              | _, _, _, _ => none
            | _ => none
          else some (some e, rest2)
        match dec with
        | none => none
        | some (ch?, rest3) =>
          match parseRelaxedStringBody q fuel rest3 with
          | some (chars, rem) =>
            some ((match ch? with | some ch => ch :: chars | none => chars), rem)
          | none => none
    else
      match parseRelaxedStringBody q fuel rest with
      | some (chars, rem) => some (c :: chars, rem)
      | none => none

/-- A lenient numeric literal: optional sign, decimal digits with optional
fraction or leading dot, optional exponent; leading zeros allowed. -/
def parseRelaxedNumber (l : List Char) : Option (ℚ × List Char) :=
  let (sign, l1) :=
    match l with
    | '-' :: rest => ((-1 : ℚ), rest)
    | '+' :: rest => ((1 : ℚ), rest)
    | _ => ((1 : ℚ), l)
  let (intDigits, l2) := takeDigits l1
  let (fracDigits, l3) :=
    match l2 with
    | '.' :: rest => takeDigits rest
    | _ => ([], l2)
  if intDigits.isEmpty ∧ fracDigits.isEmpty then none
  else
    let (expVal, l4) : Option Int × List Char :=
      match l3 with
      | e :: rest =>
        if e = 'e' ∨ e = 'E' then
          let (esign, rest2) :=
            match rest with
            | '+' :: r => ((1 : Int), r)
            | '-' :: r => ((-1 : Int), r)
            | _ => ((1 : Int), rest)
          let (eds, rest3) := takeDigits rest2
          if eds.isEmpty then (none, l3)
          else (some (esign * (digitsToNat eds : Int)), rest3)
        else (some 0, l3)
      | [] => (some 0, l3)
    match expVal with
    | none => none
    | some ex =>
      let mantissa : ℚ := (digitsToNat (intDigits ++ fracDigits) : ℚ)
      some (sign * mantissa * (10 : ℚ) ^ (ex - (fracDigits.length : Int)), l4)

mutual

/-- A lenient literal value. -/
def parseRelaxedValue : Nat → List Char → Option (JsValue × List Char)
  | 0, _ => none
  | Nat.succ fuel, l =>
    match skipJsonWs l with
    | [] => none
    | c :: rest =>
      if c = '"' ∨ c = squote then
        match parseRelaxedStringBody c (rest.length + 1) rest with
        | some (chars, rem) => some (JsValue.str ⟨chars⟩, rem)
        | none => none
      else if c = '[' then
        match skipJsonWs rest with
        | ']' :: rest2 => some (JsValue.arr [], rest2)
        | rest2 => match parseRelaxedArrayItems fuel rest2 with
          | some (elems, rem) => some (JsValue.arr elems, rem)
          | none => none
      else if c = '{' then
        match skipJsonWs rest with
        | '}' :: rest2 => some (JsValue.obj [], rest2)
        | rest2 => match parseRelaxedObjectItems fuel rest2 with
          | some (fields, rem) => some (JsValue.obj fields, rem)
          | none => none
      else if isIdentStart c then
        let ident : List Char := c :: rest.takeWhile isIdentChar
        let rem := rest.dropWhile isIdentChar
        if ident = ['t', 'r', 'u', 'e'] then some (JsValue.bool true, rem)
        else if ident = ['f', 'a', 'l', 's', 'e'] then some (JsValue.bool false, rem)
        else if ident = ['n', 'u', 'l', 'l'] then some (JsValue.null, rem)
        else if ident = ['u', 'n', 'd', 'e', 'f', 'i', 'n', 'e', 'd'] then
          some (JsValue.undef, rem)
        else none
      else
        match parseRelaxedNumber (c :: rest) with
        | some (q, rem) => some (JsValue.num q, rem)
        | none => none

/-- Lenient array elements, allowing a trailing comma. -/
def parseRelaxedArrayItems : Nat → List Char → Option (List JsValue × List Char)
  | 0, _ => none
  | Nat.succ fuel, l =>
    match parseRelaxedValue fuel l with
    | none => none
    | some (v, rest) =>
      match skipJsonWs rest with
      | ',' :: rest2 =>
        (match skipJsonWs rest2 with
         | ']' :: rest3 => some ([v], rest3)
         | _ =>
           match parseRelaxedArrayItems fuel rest2 with
           | some (elems, rem) => some (v :: elems, rem)
           | none => none)
      | ']' :: rest2 => some ([v], rest2)
      | _ => none

/-- Lenient object members: identifier, string or numeric keys, mandatory
colon (a shorthand member is a ReferenceError), trailing comma allowed. -/
def parseRelaxedObjectItems : Nat → List Char → Option (List (String × JsValue) × List Char)
  | 0, _ => none
  | Nat.succ fuel, l =>
    let keyParse : Option (String × List Char) :=
      match skipJsonWs l with
      | [] => none
      | c :: rest =>
        if c = '"' ∨ c = squote then
          match parseRelaxedStringBody c (rest.length + 1) rest with
          | some (chars, rem) => some (⟨chars⟩, rem)
          | none => none
        else if isIdentStart c then
          some (⟨c :: rest.takeWhile isIdentChar⟩, rest.dropWhile isIdentChar)
        else if isDigitChar c then
          some (⟨c :: rest.takeWhile isDigitChar⟩, rest.dropWhile isDigitChar)
        else none
    match keyParse with
    | none => none
    | some (key, rest) =>
      match skipJsonWs rest with
      | ':' :: rest2 =>
        (match parseRelaxedValue fuel rest2 with
         | none => none
         | some (v, rest3) =>
           match skipJsonWs rest3 with
           | ',' :: rest4 =>
             (match skipJsonWs rest4 with
              | '}' :: rest5 => some ([(key, v)], rest5)
              | _ =>
                match parseRelaxedObjectItems fuel rest4 with
                | some (fields, rem) => some ((key, v) :: fields, rem)
                | none => none)
           | '}' :: rest4 => some ([(key, v)], rest4)
           | _ => none)
      | _ => none

end

/-- The model of constructing and invoking the Function wrapper on `s`: parse
one lenient value, allow the top-level comma operator (the value of a comma
sequence is its last operand), and require only whitespace to remain. -/
def relaxedEvalGo : Nat → List Char → Option JsValue
  | 0, _ => none
  | Nat.succ fuel, l =>
    match parseRelaxedValue (2 * l.length + 2) l with
    | none => none
    | some (v, rest) =>
      match skipJsonWs rest with
      | [] => some v
      | ',' :: rest2 => relaxedEvalGo fuel rest2
      | _ => none

/-- `new Function('return (' + s + ')')()`: `Except.error` models both the
SyntaxError at construction and any error thrown by the call. -/
def relaxedEval (s : String) : Except String JsValue :=
  match relaxedEvalGo (s.length + 1) s.data with
  | some v => Except.ok v
  | none => Except.error "relaxed evaluation failed"

/-! ### `cleanAndParseJSON`: fence stripping, bounds, reconstruction -/

/-- Step 1 of the parser: strip code-fence markers and trim. -/
def stripFences (content : String) : String :=
  jsTrim (jsReplaceAll (jsReplaceAll content "```json" "") "```" "")

/-- Step 2: the index of the first plausible opening brace or bracket
(the brace wins when it comes first). -/
def jsonStartIdx (clean : List Char) : Option Nat :=
  match jsIndexOfChar clean '{', jsIndexOfChar clean '[' with
  | some b, some k => if b < k then some b else some k
  | some b, none => some b
  | none, some k => some k
  | none, none => none

/-- `Math.max(candidate.lastIndexOf(closing brace), candidate.lastIndexOf(closing
bracket))` with -1 modelled as `none`. -/
def lastCloseIdx (l : List Char) : Option Nat :=
  match jsLastIndexOfChar l '}', jsLastIndexOfChar l ']' with
  | some a, some b => some (max a b)
  | some a, none => some a
  | none, some b => some b
  | none, none => none

/-- Case-insensitive (or sensitive) literal prefix strip. -/
def prefixStrip (ci : Bool) : List Char → List Char → Option (List Char)
  | [], l => some l
  | _ :: _, [] => none
  | p :: ps, c :: cs =>
    if (if ci then jsToLowerChar p = jsToLowerChar c else p = c) then prefixStrip ci ps cs
    else none

/-- Match, at the current position, the pattern quote key quote \s* : \s* open
brace (the extraction regex); returns the number of characters up to and
including the brace. -/
def matchKeyColonBrace (ci : Bool) (key l : List Char) : Option Nat :=
  match prefixStrip ci ('"' :: key ++ ['"']) l with
  | none => none
  | some rest1 =>
    let ws1 := rest1.takeWhile jsIsWs
    match rest1.dropWhile jsIsWs with
    | ':' :: rest2 =>
      let ws2 := rest2.takeWhile jsIsWs
      (match rest2.dropWhile jsIsWs with
       | '{' :: _ => some (key.length + 2 + ws1.length + 1 + ws2.length + 1)
       | _ => none)
    | _ => none

/-- First match position (index of the opening brace) of the extraction
pattern, scanning left to right. -/
def findKeyColonBrace (ci : Bool) (key : List Char) : List Char → Nat → Option Nat
  | [], _ => none
  | c :: rest, pos =>
    match matchKeyColonBrace ci key (c :: rest) with
    | some consumed => some (pos + consumed - 1)
    | none => findKeyColonBrace ci key rest (pos + 1)

/-- Explicit brace counting from an opening brace: offset of the position
where the count returns to zero, if any (string-blind, as in the source). -/
def findBraceEnd : List Char → Int → Option Nat
  | [], _ => none
  | c :: rest, count =>
    let count := if c = '{' then count + 1 else count
    let count := if c = '}' then count - 1 else count
    if count = 0 then some 0
    else (findBraceEnd rest count).map (fun n => n + 1)

/-- The anchored pattern comma \s* end-of-string, removed if present. -/
def stripTrailingCommaWs (l : List Char) : List Char :=
  let r := l.reverse
  match (r.dropWhile jsIsWs) with
  | ',' :: rest2 => rest2.reverse
  | _ => l

/-- The pattern optional-CR LF replaced by a space everywhere. -/
def replaceNewlines : List Char → List Char
  | '\r' :: '\n' :: rest => ' ' :: replaceNewlines rest
  | '\n' :: rest => ' ' :: replaceNewlines rest
  | c :: rest => c :: replaceNewlines rest
  | [] => []

/-- Backslash runs collapsed to a single backslash. -/
def collapseBackslashes : Nat → List Char → List Char
  | 0, l => l
  | _, [] => []
  | Nat.succ fuel, '\\' :: rest => '\\' :: collapseBackslashes fuel (rest.dropWhile (fun c => c = '\\'))
  | Nat.succ fuel, c :: rest => c :: collapseBackslashes fuel rest

/-- The `extractObject` helper of the reconstruction stage: regex-locate the
key, brace-count the sub-object (heuristically closing it on truncation),
normalize newlines, and evaluate leniently with a backslash-collapse retry;
`none` models returning null. -/
def extractObject (text : List Char) (key : List Char) : Option JsValue :=
  match findKeyColonBrace true key text 0 with
  | none => none
  | some startIndex =>
    let tail := text.drop startIndex
    let jsonBlock :=
      match findBraceEnd tail 0 with
      | some off => tail.take (off + 1)
      | none => stripTrailingCommaWs tail ++ ['}']
    let jsonBlock := replaceNewlines jsonBlock
    match relaxedEval ⟨jsonBlock⟩ with
    | Except.ok v => some v
    | Except.error _ =>
      match relaxedEval ⟨collapseBackslashes (jsonBlock.length + 1) jsonBlock⟩ with
      | Except.ok v => some v
      | Except.error _ => none

/-- Match, at the current position, the flat-field pattern quote key quote
\s* : \s* quote captured-non-quotes quote; returns the capture. -/
def matchFlatFieldAt (ci : Bool) (key l : List Char) : Option (List Char) :=
  match prefixStrip ci ('"' :: key ++ ['"']) l with
  | none => none
  | some rest1 =>
    match rest1.dropWhile jsIsWs with
    | ':' :: rest2 =>
      (match rest2.dropWhile jsIsWs with
       | '"' :: rest3 =>
         let content := rest3.takeWhile (fun c => c ≠ '"')
         if content ≠ [] ∧ (rest3.dropWhile (fun c => c ≠ '"')).head? = some '"' then
           some content
         else none
       | _ => none)
    | _ => none

/-- First match of the flat-field pattern, scanning left to right; the
`getFlatField` helper (`none` models null). -/
def findFlatField (ci : Bool) (key : List Char) : List Char → Option (List Char)
  | [] => none
  | c :: rest =>
    match matchFlatFieldAt ci key (c :: rest) with
    | some content => some content
    | none => findFlatField ci key rest

/-- The denylist guarding relaxed evaluation. -/
def dangerousKeywords : List String :=
  ["process", "require", "import", "global", "window", "eval", "function", "=>", "class"]

/-- The value stored by `reconstructed.k = getFlatField(text, k)`. -/
def flatFieldValue (text : List Char) (key : String) : JsValue :=
  match findFlatField true key.data text with
  | some content => JsValue.str ⟨content⟩
  | none => JsValue.null

/-- The full repair chain Fix 0 to Fix 7 applied in order. -/
def applyFixes (s : String) : String :=
  let a := fix0 s.data
  let b := fix1 (a.length + 1) a
  let c := fix2 (b.length + 1) b
  let d := fix3 (c.length + 1) c
  let e := fix4 (d.length + 1) d
  let f := fix5 (e.length + 1) e
  let g := fix6 (f.length + 1) f
  ⟨fix7 (g.length + 1) g⟩

/-- The `try` block of the current (part_005) `cleanAndParseJSON`: repairs,
relaxed evaluation, then field-by-field reconstruction; every exit in the
source is a `return`, so no branch produces an error. -/
def cleanAndParseJSONTry (candidate clean : String) : Except String JsValue :=
  let fixed := applyFixes candidate
  let p := tryParse fixed
  if truthy p then Except.ok p
  else
    let hasDanger := dangerousKeywords.any (fun kw => jsIncludes fixed kw)
    let relaxedResult : Option JsValue :=
      if ¬ hasDanger then
        match relaxedEval fixed with
        | Except.ok v => some v
        | Except.error _ => none
      else none
    match relaxedResult with
    | some v => Except.ok v
    | none =>
      let reconstructed := JsValue.obj
        [ ("employeeRemarkAnalysis",
            (extractObject candidate.data "employeeRemarkAnalysis".data).getD JsValue.null),
          ("applicantRemarkAnalysis",
            (extractObject candidate.data "applicantRemarkAnalysis".data).getD JsValue.null),
          ("delayAnalysis",
            (extractObject candidate.data "delayAnalysis".data).getD JsValue.null),
          ("sentimentSummary", flatFieldValue clean.data "sentimentSummary"),
          ("ticketInsightSummary", flatFieldValue clean.data "ticketInsightSummary"),
          ("category", flatFieldValue clean.data "category"),
          ("englishSummary", flatFieldValue clean.data "englishSummary"),
          ("employeeAnalysis", flatFieldValue clean.data "employeeAnalysis"),
          ("applicantAnalysis", flatFieldValue clean.data "applicantAnalysis") ]
      if truthy (jsGet reconstructed "employeeRemarkAnalysis") ||
          truthy (jsGet reconstructed "sentimentSummary") ||
          truthy (jsGet reconstructed "englishSummary") then
        Except.ok reconstructed
      else Except.ok JsValue.null

/-- The current (part_005) `cleanAndParseJSON`: fence stripping, bounds
detection (null when no opening brace or bracket occurs), direct parse,
trimmed parse, then the repair stage; the outer catch re-throws, but the
`try` body never throws. -/
def cleanAndParseJSON (content : String) : Except String JsValue :=
  let clean := stripFences content
  match jsonStartIdx clean.data with
  | none => Except.ok JsValue.null
  | some startIdx =>
    let candidate : String := ⟨clean.data.drop startIdx⟩
    let parsed := tryParse candidate
    if truthy parsed then Except.ok parsed
    else
      let attempt1b : Option JsValue :=
        match lastCloseIdx candidate.data with
        | some lc =>
          if 0 < lc then
            let p := tryParse ⟨candidate.data.take (lc + 1)⟩
            if truthy p then some p else none
          else none
        | none => none
      match attempt1b with
      | some v => Except.ok v
      | none =>
        match cleanAndParseJSONTry candidate clean with
        | Except.ok v => Except.ok v
        | Except.error e => Except.error ("JSON Parse Failed: " ++ e)

/-! ### The legacy `cleanAndParseJSON` of src/services/AIAnalysisService.ts -/

/-- Count of a character in a list (the match-g-length idiom). -/
def countChar (l : List Char) (c : Char) : Nat :=
  (l.filter (fun x => x = c)).length

/-- The truncation-closing string of the legacy version: a quote when the
quote count is odd, then the missing closing brackets, then the missing
closing braces. -/
def closingStr (fixed : List Char) : List Char :=
  (if countChar fixed '"' % 2 ≠ 0 then ['"'] else []) ++
    (if countChar fixed ']' < countChar fixed '[' then
      List.replicate (countChar fixed '[' - countChar fixed ']') ']'
    else []) ++
    (if countChar fixed '}' < countChar fixed '{' then
      List.replicate (countChar fixed '{' - countChar fixed '}') '}'
    else [])

/-- The `try` block of the legacy version: repairs, relaxed evaluation with a
truncation-closing retry, then case-sensitive fallback extraction of
englishSummary and category; when everything fails it throws
"Failed to repair JSON". -/
def servicesCleanAndParseJSONTry (clean : String) : Except String JsValue :=
  let fixed := applyFixes clean
  let p := tryParse fixed
  if truthy p then Except.ok p
  else
    let hasDanger := dangerousKeywords.any (fun kw => jsIncludes fixed kw)
    let attempt5 : Option JsValue :=
      if ¬ hasDanger then
        match relaxedEval fixed with
        | Except.ok v => some v
        | Except.error _ =>
          let cs := closingStr fixed.data
          if cs ≠ [] then
            match relaxedEval ⟨fixed.data ++ cs⟩ with
            | Except.ok v => some v
            | Except.error _ => none
          else none
      else none
    match attempt5 with
    | some v => Except.ok v
    | none =>
      let fallback : List (String × JsValue) :=
        (match findFlatField false "englishSummary".data clean.data with
         | some content => [("englishSummary", JsValue.str ⟨content⟩)]
         | none => []) ++
        (match findFlatField false "category".data clean.data with
         | some content => [("category", JsValue.str ⟨content⟩)]
         | none => [])
      if 0 < fallback.length then Except.ok (JsValue.obj fallback)
      else Except.error "Failed to repair JSON"

/-- The legacy `cleanAndParseJSON` of src/services/AIAnalysisService.ts: it
trims the candidate to the last closing character up front and, unlike the
current version, throws when every stage fails. -/
def servicesCleanAndParseJSON (content : String) : Except String JsValue :=
  let clean0 := stripFences content
  match jsonStartIdx clean0.data with
  | none => Except.ok JsValue.null
  | some startIdx =>
    let clean1 := clean0.data.drop startIdx
    let clean2 :=
      match lastCloseIdx clean1 with
      | some lc => if 0 < lc then clean1.take (lc + 1) else clean1
      | none => clean1
    let clean : String := ⟨clean2⟩
    let parsed := tryParse clean
    if truthy parsed then Except.ok parsed
    else
      match servicesCleanAndParseJSONTry clean with
      | Except.ok v => Except.ok v
      | Except.error e => Except.error ("JSON Parse Failed: " ++ e)

/-! ### Claims C1 and C10 -/

theorem cleanAndParseJSONTry_ok (candidate clean : String) :
    ∃ v, cleanAndParseJSONTry candidate clean = Except.ok v := by
  unfold cleanAndParseJSONTry
  dsimp only
  repeat' split
  all_goals exact ⟨_, rfl⟩

/-- C1 (amended): the current (part_005) `cleanAndParseJSON` is total and
never surfaces an exception: for every input string it returns a value or the
explicit null signal.  (The legacy copy in src/services/AIAnalysisService.ts
violates the claim as stated; see the counterexample.) -/
theorem cleanAndParseJSON_total_never_throws :
    ∀ content : String, ∃ v, cleanAndParseJSON content = Except.ok v := by
  intro content
  unfold cleanAndParseJSON
  dsimp only
  split
  · exact ⟨_, rfl⟩
  · split
    · exact ⟨_, rfl⟩
    · split
      · exact ⟨_, rfl⟩
      · split
        · rename_i heq
          exact ⟨_, rfl⟩
        · rename_i heq
          obtain ⟨v, hv⟩ := cleanAndParseJSONTry_ok
            ⟨(stripFences content).data.drop _⟩ (stripFences content)
          rw [hv] at heq
          exact absurd heq (by simp)

/-- C1 counterexample: the legacy `cleanAndParseJSON` of
src/services/AIAnalysisService.ts raises on the malformed input consisting of
an opening brace and the letters a b c: every stage fails and the final
fallback re-throws, contradicting the claim that the parser never raises on
malformed input. -/
theorem servicesCleanAndParseJSON_throws_counterexample :
    servicesCleanAndParseJSON "\x7babc" =
      Except.error "JSON Parse Failed: Failed to repair JSON" := by
  rfl

theorem findIdx?_eq_none_of_not_mem {l : List Char} {c : Char} (h : c ∉ l) :
    l.findIdx? (fun x => x = c) = none := by
  rw [List.findIdx?_eq_none_iff]
  intro x hx
  simp only [decide_eq_false_iff_not]
  intro hxc
  exact h (hxc ▸ hx)

/-- C10: when the cleaned input contains neither an opening brace nor an
opening bracket (bare scalars, the empty string), `cleanAndParseJSON`
returns the unrecoverable null signal without attempting a parse. -/
theorem cleanAndParseJSON_no_bracket_null :
    ∀ content : String,
      '{' ∉ (stripFences content).data →
      '[' ∉ (stripFences content).data →
      cleanAndParseJSON content = Except.ok JsValue.null := by
  intro content hbrace hbracket
  have hidx : jsonStartIdx (stripFences content).data = none := by
    unfold jsonStartIdx jsIndexOfChar
    rw [findIdx?_eq_none_of_not_mem hbrace, findIdx?_eq_none_of_not_mem hbracket]
  unfold cleanAndParseJSON
  dsimp only
  rw [hidx]

/-- C10 witness: the bare scalar "42" is valid JSON but contains no brace or
bracket, and the parser returns null for it. -/
theorem cleanAndParseJSON_no_bracket_null_witness :
    '{' ∉ (stripFences "42").data ∧ '[' ∉ (stripFences "42").data ∧
      cleanAndParseJSON "42" = Except.ok JsValue.null := by
  have h1 : '{' ∉ (stripFences "42").data := by decide
  have h2 : '[' ∉ (stripFences "42").data := by decide
  exact ⟨h1, h2, cleanAndParseJSON_no_bracket_null "42" h1 h2⟩

/-! ### Per-ticket forensic analysis (claims C3 and C4)

`runForensicAnalysisForTicket` builds a prompt from the ticket and the
reconstructed conversation history and calls the provider; the provider
interaction is abstracted as a function from the ticket to the outcome of
`aiService.generate` (an `Except` models the provider throwing), since only
the raw response text feeds the parsing and adaptation logic verified here. -/

/-- An entry of the `validTickets` list built by `analyzeRemarks`
(ticket ids are unique because they are keys of the grouping map). -/
structure ForensicTicket where
  id : String
  delay : ℚ
  service : String
  parentService : String
  stage : String
  lastActionBy : String
  deriving Repr

/-- The spread `{...base, ...v}` of a JS value into an object literal. -/
def spreadProps (base : List (String × JsValue)) (v : JsValue) : List (String × JsValue) :=
  match v with
  | JsValue.obj fields => fields.foldl (fun acc e => recordSet acc e.1 e.2) base
  | JsValue.arr elems =>
    (elems.enum).foldl (fun acc e => recordSet acc (toString e.1) e.2) base
  | JsValue.str s =>
    (s.data.enum).foldl (fun acc e => recordSet acc (toString e.1) (JsValue.str ⟨[e.2]⟩)) base
  | _ => base

/-- The default applicant analysis object. -/
def defaultApplicantRemarkAnalysis : JsValue :=
  JsValue.obj
    [ ("summary", JsValue.str "No applicant remarks available"),
      ("totalApplicantRemarks", JsValue.num 0),
      ("keyActions", JsValue.arr []),
      ("responseTimeliness", JsValue.str "N/A"),
      ("sentimentTrend", JsValue.str "Neutral"),
      ("complianceLevel", JsValue.str "Unknown") ]

/-- The default document-clarity sub-object. -/
def defaultDocumentClarityAnalysis : JsValue :=
  JsValue.obj
    [ ("documentClarityProvided", JsValue.bool false),
      ("documentNames", JsValue.arr []) ]

/-- The delay-analysis object of the nested branch: explicit defaults, the
spread of the parsed sub-object, then the document-clarity field. -/
def mkDelayAnalysisNested (parsed : JsValue) : JsValue :=
  let base : List (String × JsValue) :=
    [ ("primaryDelayCategory", JsValue.str "Unknown"),
      ("primaryCategoryConfidence", JsValue.num 0),
      ("categorySummary", JsValue.str "Analysis incomplete"),
      ("allApplicableCategories", JsValue.arr []),
      ("processGaps", JsValue.arr []),
      ("painPoints", JsValue.arr []),
      ("forcefulDelays", JsValue.arr []) ]
  let merged := spreadProps base (jsOrV (jsGet parsed "delayAnalysis") (JsValue.obj []))
  JsValue.obj (recordSet merged "documentClarityAnalysis"
    (jsOrV (jsGetOpt (jsGet parsed "delayAnalysis") "documentClarityAnalysis")
      defaultDocumentClarityAnalysis))

/-- The delay-analysis object of the flat branch. -/
def mkDelayAnalysisFlat (parsed : JsValue) : JsValue :=
  let base : List (String × JsValue) :=
    [ ("primaryDelayCategory", jsOrV (jsGet parsed "primaryDelayCategory") (JsValue.str "Unknown")),
      ("primaryCategoryConfidence", JsValue.num 0),
      ("categorySummary", jsOrV (jsGet parsed "categorySummary") (JsValue.str "Analysis incomplete")),
      ("allApplicableCategories", JsValue.arr []),
      ("processGaps", jsOrV (jsGet parsed "processGaps") (JsValue.arr [])),
      ("painPoints", jsOrV (jsGet parsed "painPoints") (JsValue.arr [])),
      ("forcefulDelays", jsOrV (jsGet parsed "forcefulDelays") (JsValue.arr [])) ]
  let merged := spreadProps base (jsOrV (jsGet parsed "delayAnalysis") (JsValue.obj []))
  JsValue.obj (recordSet merged "documentClarityAnalysis"
    (jsOrV (jsGetOpt (jsGet parsed "delayAnalysis") "documentClarityAnalysis")
      defaultDocumentClarityAnalysis))

/-- The report built when the parsed response has the expected nested shape
(a truthy employeeRemarkAnalysis). -/
def adaptNested (parsed : JsValue) : JsValue :=
  JsValue.obj
    [ ("employeeRemarkAnalysis", jsGet parsed "employeeRemarkAnalysis"),
      ("applicantRemarkAnalysis",
        jsOrV (jsGet parsed "applicantRemarkAnalysis") defaultApplicantRemarkAnalysis),
      ("delayAnalysis", mkDelayAnalysisNested parsed),
      ("sentimentSummary", jsOrV (jsGet parsed "sentimentSummary") (JsValue.str "Analysis complete.")),
      ("ticketInsightSummary",
        jsOrV (jsGet parsed "ticketInsightSummary")
          (JsValue.str "Detailed forensic analysis of the critical path.")) ]

/-- The report adapted from a recognizable flat response. -/
def adaptFlat (parsed : JsValue) : JsValue :=
  JsValue.obj
    [ ("employeeRemarkAnalysis", JsValue.obj
        [ ("summary",
            jsOrV (jsOrV (jsOrV (jsGet parsed "summary") (jsGet parsed "employeeAnalysis"))
              (jsGet parsed "englishSummary")) (JsValue.str "Analysis derived from flat response")),
          ("totalEmployeeRemarks", JsValue.num 0),
          ("keyActions", jsOrV (jsGet parsed "keyActions") (JsValue.arr [])),
          ("responseTimeliness", JsValue.str "Unknown"),
          ("communicationClarity", JsValue.str "Unknown"),
          ("inactionFlags", JsValue.arr []) ]),
      ("applicantRemarkAnalysis", defaultApplicantRemarkAnalysis),
      ("delayAnalysis", mkDelayAnalysisFlat parsed),
      ("sentimentSummary", jsOrV (jsGet parsed "sentimentSummary") (JsValue.str "Analysis complete.")),
      ("ticketInsightSummary",
        jsOrV (jsOrV (jsGet parsed "ticketInsightSummary") (jsGet parsed "summary"))
          (JsValue.str "Detailed forensic analysis of the critical path.")) ]

/-- The acceptance and adaptation logic applied to the parse result: the
nested shape is adapted with per-field defaults, a recognizable flat shape is
restructured, anything else is rejected (`none`, the per-ticket skip). -/
def adaptParsed (parsed : JsValue) : Option JsValue :=
  if truthy parsed then
    if truthy (jsGet parsed "employeeRemarkAnalysis") then some (adaptNested parsed)
    else if truthy (jsGet parsed "summary") || truthy (jsGet parsed "rootCause") ||
        truthy (jsGet parsed "delayAnalysis") || truthy (jsGet parsed "sentimentSummary") ||
        truthy (jsGet parsed "ticketInsightSummary") || truthy (jsGet parsed "englishSummary") ||
        truthy (jsGet parsed "employeeAnalysis") then some (adaptFlat parsed)
    else none
  else none

/-- `runForensicAnalysisForTicket` given the outcome of the provider call:
a thrown provider error or an unrecoverable/unrecognizable response yields
`none` (skip); otherwise the adapted report. -/
def runForensicAnalysisForTicket (genResult : Except String String) : Option JsValue :=
  match genResult with
  | Except.error _ => none
  | Except.ok content =>
    match cleanAndParseJSON content with
    | Except.error _ => none
    | Except.ok parsed => adaptParsed parsed

/-- The `analyzeRemarks` accumulation loop: one sequential pass over the
tickets, inserting an entry only when the per-ticket analysis succeeded. -/
def analyzeRemarksReports (gen : ForensicTicket → Except String String)
    (tickets : List ForensicTicket) : List (String × JsValue) :=
  tickets.foldl (fun m t =>
    match runForensicAnalysisForTicket (gen t) with
    | some r => recordSet m t.id r
    | none => m) []

/-- Presence of all the given keys on an object value. -/
def objHasKeys (v : JsValue) (ks : List String) : Bool :=
  match v with
  | JsValue.obj fields => ks.all (fun k => alistHas fields k)
  | _ => false

/-- The full-report schema: the five analyses are present and truthy and the
delay analysis carries all its required sub-fields. -/
def fullReportSchema (r : JsValue) : Prop :=
  truthy (jsGet r "employeeRemarkAnalysis") = true ∧
  truthy (jsGet r "applicantRemarkAnalysis") = true ∧
  truthy (jsGet r "delayAnalysis") = true ∧
  truthy (jsGet r "sentimentSummary") = true ∧
  truthy (jsGet r "ticketInsightSummary") = true ∧
  objHasKeys (jsGet r "delayAnalysis")
    [ "primaryDelayCategory", "primaryCategoryConfidence", "categorySummary",
      "allApplicableCategories", "processGaps", "painPoints", "forcefulDelays",
      "documentClarityAnalysis" ] = true

/-! ### Association-list lemmas -/

theorem alistGet?_alistModify_set {κ β : Type} [DecidableEq κ]
    (m : List (κ × β)) (k : κ) (v : β) (id : κ) :
    alistGet? (alistModify m k (fun _ => v)) id =
      if id = k then (if alistHas m k then some v else none) else alistGet? m id := by
  induction m with
  | nil => simp [alistGet?, alistModify, alistHas]
  | cons e rest ih =>
    by_cases hek : e.1 = k
    · by_cases hidk : id = k
      · subst hidk
        simp_all [alistGet?, alistModify, alistHas, List.find?]
      · have heid : ¬ (e.1 = id) := fun hc => hidk (by rw [← hc, hek])
        simp_all [alistGet?, alistModify, alistHas, List.find?]
    · by_cases hidk : id = k
      · subst hidk
        simp_all [alistGet?, alistModify, alistHas, List.find?]
        rw [show (decide (e.1 = id)) = false from by simp [hek], Bool.false_or]
      · by_cases heid : e.1 = id
        · simp_all [alistGet?, alistModify, alistHas, List.find?]
        · simp_all [alistGet?, alistModify, alistHas, List.find?]

theorem alistGet?_append_single {κ β : Type} [DecidableEq κ]
    (m : List (κ × β)) (k : κ) (v : β) (id : κ) :
    alistGet? (m ++ [(k, v)]) id =
      match alistGet? m id with
      | some w => some w
      | none => if id = k then some v else none := by
  induction m with
  | nil =>
    simp only [List.nil_append, alistGet?, List.find?]
    by_cases h : id = k
    · subst h
      simp
    · have : ((k = id)) = False := by
        simp only [eq_iff_iff, iff_false]
        intro hc
        exact h hc.symm
      simp [this, h]
  | cons e rest ih =>
    simp only [List.cons_append, alistGet?, List.find?] at *
    by_cases heid : e.1 = id
    · simp [heid]
    · have : ((e.1 = id)) = False := by simp [heid]
      simp only [this, decide_False, cond_false] at *
      exact ih

theorem alistHas_of_get?_some {κ β : Type} [DecidableEq κ]
    {m : List (κ × β)} {k : κ} {v : β} (h : alistGet? m k = some v) :
    alistHas m k = true := by
  induction m with
  | nil => simp [alistGet?, List.find?] at h
  | cons e rest ih =>
    simp only [alistGet?, List.find?] at h
    simp only [alistHas, List.any_cons]
    by_cases heid : e.1 = k
    · simp [heid]
    · have : ((e.1 = k)) = False := by simp [heid]
      simp only [this, decide_False, cond_false, Bool.false_or] at *
      exact ih h

theorem alistGet?_recordSet {κ β : Type} [DecidableEq κ]
    (m : List (κ × β)) (k : κ) (v : β) (id : κ) :
    alistGet? (recordSet m k v) id = if id = k then some v else alistGet? m id := by
  unfold recordSet
  by_cases hhas : alistHas m k
  · rw [if_pos hhas, alistGet?_alistModify_set, if_pos hhas]
  · rw [if_neg hhas]
    unfold alistAppend
    rw [alistGet?_append_single]
    by_cases hidk : id = k
    · subst hidk
      cases hg : alistGet? m id with
      | some w => exact absurd (alistHas_of_get?_some hg) hhas
      | none => simp [hg]
    · cases hg : alistGet? m id with
      | some w => simp [hg, hidk]
      | none => simp [hg, hidk]

theorem truthy_jsOrV_right (a b : JsValue) (hb : truthy b = true) :
    truthy (jsOrV a b) = true := by
  unfold jsOrV
  split
  · assumption
  · exact hb

theorem alistHas_alistModify {κ β : Type} [DecidableEq κ]
    (m : List (κ × β)) (k k2 : κ) (f : β → β) :
    alistHas (alistModify m k2 f) k = alistHas m k := by
  induction m with
  | nil => rfl
  | cons e rest ih =>
    simp only [alistModify, alistHas, List.map_cons, List.any_cons] at *
    by_cases hek : e.1 = k2 <;> simp_all

theorem alistHas_recordSet_of_has {κ β : Type} [DecidableEq κ]
    {m : List (κ × β)} {k : κ} (k2 : κ) (v : β) (h : alistHas m k = true) :
    alistHas (recordSet m k2 v) k = true := by
  unfold recordSet
  split
  · rw [alistHas_alistModify]
    exact h
  · unfold alistAppend alistHas at *
    simp only [List.any_append, h, Bool.true_or]

theorem alistHas_recordSet_self {κ β : Type} [DecidableEq κ]
    (m : List (κ × β)) (k : κ) (v : β) :
    alistHas (recordSet m k v) k = true := by
  unfold recordSet
  split
  · rename_i h
    rw [alistHas_alistModify]
    exact h
  · unfold alistAppend alistHas
    simp

theorem alistHas_foldl_recordSet {κ β α : Type} [DecidableEq κ]
    (l : List α) (g : α → κ) (h : α → β) (m : List (κ × β)) (k : κ)
    (hm : alistHas m k = true) :
    alistHas (l.foldl (fun acc e => recordSet acc (g e) (h e)) m) k = true := by
  induction l generalizing m with
  | nil => exact hm
  | cons x rest ih =>
    exact ih (recordSet m (g x) (h x)) (alistHas_recordSet_of_has (g x) (h x) hm)

theorem alistHas_spreadProps {base : List (String × JsValue)} {k : String}
    (v : JsValue) (h : alistHas base k = true) :
    alistHas (spreadProps base v) k = true := by
  unfold spreadProps
  match v with
  | JsValue.obj fields => exact alistHas_foldl_recordSet fields _ _ base k h
  | JsValue.arr elems => exact alistHas_foldl_recordSet elems.enum _ _ base k h
  | JsValue.str s => exact alistHas_foldl_recordSet s.data.enum _ _ base k h
  | JsValue.undef => exact h
  | JsValue.null => exact h
  | JsValue.bool b => exact h
  | JsValue.num q => exact h

theorem objHasKeys_mkDelayAnalysisNested (p : JsValue) :
    objHasKeys (mkDelayAnalysisNested p)
      [ "primaryDelayCategory", "primaryCategoryConfidence", "categorySummary",
        "allApplicableCategories", "processGaps", "painPoints", "forcefulDelays",
        "documentClarityAnalysis" ] = true := by
  unfold mkDelayAnalysisNested objHasKeys
  simp only [List.all_cons, List.all_nil, Bool.and_true, Bool.and_eq_true]
  refine ⟨?_, ?_, ?_, ?_, ?_, ?_, ?_, alistHas_recordSet_self _ _ _⟩ <;>
    exact alistHas_recordSet_of_has _ _ (alistHas_spreadProps _ (by simp [alistHas]))

theorem objHasKeys_mkDelayAnalysisFlat (p : JsValue) :
    objHasKeys (mkDelayAnalysisFlat p)
      [ "primaryDelayCategory", "primaryCategoryConfidence", "categorySummary",
        "allApplicableCategories", "processGaps", "painPoints", "forcefulDelays",
        "documentClarityAnalysis" ] = true := by
  unfold mkDelayAnalysisFlat objHasKeys
  simp only [List.all_cons, List.all_nil, Bool.and_true, Bool.and_eq_true]
  refine ⟨?_, ?_, ?_, ?_, ?_, ?_, ?_, alistHas_recordSet_self _ _ _⟩ <;>
    exact alistHas_recordSet_of_has _ _ (alistHas_spreadProps _ (by simp [alistHas]))


theorem jsOrV_of_not_truthy (a b : JsValue) (h : truthy a = false) : jsOrV a b = b := by
  unfold jsOrV
  rw [h]
  simp

theorem adaptNested_schema (p : JsValue)
    (hn : truthy (jsGet p "employeeRemarkAnalysis") = true) :
    fullReportSchema (adaptNested p) := by
  unfold fullReportSchema
  have h1 : jsGet (adaptNested p) "employeeRemarkAnalysis" = jsGet p "employeeRemarkAnalysis" := rfl
  have h2 : jsGet (adaptNested p) "applicantRemarkAnalysis" =
      jsOrV (jsGet p "applicantRemarkAnalysis") defaultApplicantRemarkAnalysis := rfl
  have h3 : jsGet (adaptNested p) "delayAnalysis" = mkDelayAnalysisNested p := rfl
  have h4 : jsGet (adaptNested p) "sentimentSummary" =
      jsOrV (jsGet p "sentimentSummary") (JsValue.str "Analysis complete.") := rfl
  have h5 : jsGet (adaptNested p) "ticketInsightSummary" =
      jsOrV (jsGet p "ticketInsightSummary")
        (JsValue.str "Detailed forensic analysis of the critical path.") := rfl
  rw [h1, h2, h3, h4, h5]
  refine ⟨hn, ?_, ?_, ?_, ?_, ?_⟩
  · exact truthy_jsOrV_right _ _ rfl
  · unfold mkDelayAnalysisNested
    rfl
  · exact truthy_jsOrV_right _ _ rfl
  · exact truthy_jsOrV_right _ _ rfl
  · exact objHasKeys_mkDelayAnalysisNested p

theorem adaptFlat_schema (p : JsValue) : fullReportSchema (adaptFlat p) := by
  unfold fullReportSchema
  have h1 : truthy (jsGet (adaptFlat p) "employeeRemarkAnalysis") = true := rfl
  have h2 : jsGet (adaptFlat p) "applicantRemarkAnalysis" = defaultApplicantRemarkAnalysis := rfl
  have h3 : jsGet (adaptFlat p) "delayAnalysis" = mkDelayAnalysisFlat p := rfl
  have h4 : jsGet (adaptFlat p) "sentimentSummary" =
      jsOrV (jsGet p "sentimentSummary") (JsValue.str "Analysis complete.") := rfl
  have h5 : jsGet (adaptFlat p) "ticketInsightSummary" =
      jsOrV (jsOrV (jsGet p "ticketInsightSummary") (jsGet p "summary"))
        (JsValue.str "Detailed forensic analysis of the critical path.") := rfl
  rw [h2, h3, h4, h5]
  refine ⟨h1, rfl, ?_, ?_, ?_, ?_⟩
  · unfold mkDelayAnalysisFlat
    rfl
  · exact truthy_jsOrV_right _ _ rfl
  · exact truthy_jsOrV_right _ _ rfl
  · exact objHasKeys_mkDelayAnalysisFlat p

theorem adaptParsed_schema {p r : JsValue} (h : adaptParsed p = some r) :
    fullReportSchema r := by
  unfold adaptParsed at h
  by_cases hp : truthy p = true
  · rw [if_pos hp] at h
    by_cases hn : truthy (jsGet p "employeeRemarkAnalysis") = true
    · rw [if_pos hn] at h
      injection h with h
      exact h ▸ adaptNested_schema p hn
    · rw [if_neg hn] at h
      split at h
      · injection h with h
        exact h ▸ adaptFlat_schema p
      · exact absurd h (by simp)
  · rw [if_neg hp] at h
    exact absurd h (by simp)

theorem runForensicAnalysisForTicket_some_schema {g : Except String String} {r : JsValue}
    (h : runForensicAnalysisForTicket g = some r) : fullReportSchema r := by
  unfold runForensicAnalysisForTicket at h
  split at h
  · exact absurd h (by simp)
  · split at h
    · exact absurd h (by simp)
    · exact adaptParsed_schema h

theorem analyzeRemarksLoop_untouched (gen : ForensicTicket → Except String String)
    (ts : List ForensicTicket) (m : List (String × JsValue)) (k : String)
    (hk : k ∉ ts.map (fun t => t.id)) :
    alistGet? (ts.foldl (fun m t =>
      match runForensicAnalysisForTicket (gen t) with
      | some r => recordSet m t.id r
      | none => m) m) k = alistGet? m k := by
  induction ts generalizing m with
  | nil => rfl
  | cons x rest ih =>
    simp only [List.map_cons, List.mem_cons, not_or] at hk
    simp only [List.foldl_cons]
    rw [ih _ hk.2]
    split
    · rw [alistGet?_recordSet, if_neg hk.1]
    · rfl

theorem analyzeRemarksLoop_lookup (gen : ForensicTicket → Except String String)
    (ts : List ForensicTicket) (m : List (String × JsValue)) (t : ForensicTicket)
    (ht : t ∈ ts) (hnodup : (ts.map (fun t => t.id)).Nodup)
    (hm : alistGet? m t.id = none) :
    alistGet? (ts.foldl (fun m t =>
      match runForensicAnalysisForTicket (gen t) with
      | some r => recordSet m t.id r
      | none => m) m) t.id = runForensicAnalysisForTicket (gen t) := by
  induction ts generalizing m with
  | nil => exact absurd ht (by simp)
  | cons x rest ih =>
    simp only [List.map_cons, List.nodup_cons] at hnodup
    rcases List.mem_cons.mp ht with rfl | htr
    · simp only [List.foldl_cons]
      rw [analyzeRemarksLoop_untouched gen rest _ t.id hnodup.1]
      split
      · rename_i r hr
        rw [alistGet?_recordSet, if_pos rfl, hr]
      · rename_i hr
        rw [hm, hr]
    · have hne : t.id ≠ x.id := by
        intro hc
        exact hnodup.1 (hc ▸ List.mem_map_of_mem (fun t => t.id) htr)
      simp only [List.foldl_cons]
      refine ih _ htr hnodup.2 ?_
      split
      · rw [alistGet?_recordSet, if_neg hne]
        exact hm
      · exact hm

/-- C3: every forensic report accepted into the per-ticket map satisfies the
full report schema, and the adaptation substitutes the explicit defaults for
each analysis field missing from the parsed (nested or flat) response; a
response with no recognizable shape is never accepted. -/
theorem forensicReports_full_schema :
    (∀ (gen : ForensicTicket → Except String String) (tickets : List ForensicTicket)
        (id : String) (r : JsValue),
      alistGet? (analyzeRemarksReports gen tickets) id = some r → fullReportSchema r) ∧
    (∀ p r : JsValue, adaptParsed p = some r →
      (truthy (jsGet p "applicantRemarkAnalysis") = false →
        jsGet r "applicantRemarkAnalysis" = defaultApplicantRemarkAnalysis) ∧
      (truthy (jsGet p "sentimentSummary") = false →
        jsGet r "sentimentSummary" = JsValue.str "Analysis complete.") ∧
      (truthy (jsGet p "ticketInsightSummary") = false →
        truthy (jsGet p "summary") = false →
        jsGet r "ticketInsightSummary" =
          JsValue.str "Detailed forensic analysis of the critical path.") ∧
      (truthy p = false → adaptParsed p = none)) := by
  constructor
  · intro gen tickets id r hget
    unfold analyzeRemarksReports at hget
    have hgen : ∀ (ts : List ForensicTicket) (m : List (String × JsValue)),
        (∀ id2 r2, alistGet? m id2 = some r2 → fullReportSchema r2) →
        ∀ id2 r2, alistGet? (ts.foldl (fun m t =>
          match runForensicAnalysisForTicket (gen t) with
          | some r => recordSet m t.id r
          | none => m) m) id2 = some r2 → fullReportSchema r2 := by
      intro ts
      induction ts with
      | nil => exact fun m hm => hm
      | cons x rest ih =>
        intro m hm
        simp only [List.foldl_cons]
        refine ih _ ?_
        intro id2 r2 h2
        split at h2
        · rename_i r3 hr3
          rw [alistGet?_recordSet] at h2
          split at h2
          · injection h2 with h2
            exact h2 ▸ runForensicAnalysisForTicket_some_schema hr3
          · exact hm id2 r2 h2
        · exact hm id2 r2 h2
    exact hgen tickets [] (fun id2 r2 h => by simp [alistGet?, List.find?] at h) id r hget
  · intro p r h
    unfold adaptParsed at h
    by_cases hp : truthy p = true
    · rw [if_pos hp] at h
      by_cases hn : truthy (jsGet p "employeeRemarkAnalysis") = true
      · rw [if_pos hn] at h
        injection h with h
        subst h
        refine ⟨?_, ?_, ?_, ?_⟩
        · intro ha
          have heq : jsGet (adaptNested p) "applicantRemarkAnalysis" =
              jsOrV (jsGet p "applicantRemarkAnalysis") defaultApplicantRemarkAnalysis := rfl
          rw [heq, jsOrV_of_not_truthy _ _ ha]
        · intro hs
          have heq : jsGet (adaptNested p) "sentimentSummary" =
              jsOrV (jsGet p "sentimentSummary") (JsValue.str "Analysis complete.") := rfl
          rw [heq, jsOrV_of_not_truthy _ _ hs]
        · intro hti _
          have heq : jsGet (adaptNested p) "ticketInsightSummary" =
              jsOrV (jsGet p "ticketInsightSummary")
                (JsValue.str "Detailed forensic analysis of the critical path.") := rfl
          rw [heq, jsOrV_of_not_truthy _ _ hti]
        · intro hpf
          rw [hpf] at hp
          exact absurd hp (by simp)
      · rw [if_neg hn] at h
        split at h
        · injection h with h
          subst h
          refine ⟨?_, ?_, ?_, ?_⟩
          · intro _
            rfl
          · intro hs
            have heq : jsGet (adaptFlat p) "sentimentSummary" =
                jsOrV (jsGet p "sentimentSummary") (JsValue.str "Analysis complete.") := rfl
            rw [heq, jsOrV_of_not_truthy _ _ hs]
          · intro hti hsum
            have heq : jsGet (adaptFlat p) "ticketInsightSummary" =
                jsOrV (jsOrV (jsGet p "ticketInsightSummary") (jsGet p "summary"))
                  (JsValue.str "Detailed forensic analysis of the critical path.") := rfl
            rw [heq, jsOrV_of_not_truthy _ _ hti, jsOrV_of_not_truthy _ _ hsum]
          · intro hpf
            rw [hpf] at hp
            exact absurd hp (by simp)
        · exact absurd h (by simp)
    · rw [if_neg hp] at h
      exact absurd h (by simp)

/-- C4: per-ticket failure isolation in the forensic batch: with distinct
ticket ids, each ticket's entry in the resulting map is exactly the outcome
of its own analysis — a provider error, unrecoverable parse or unrecognized
shape for one ticket leaves that ticket absent from the map and every other
ticket's entry unchanged; the loop itself always completes. -/
theorem forensic_per_ticket_isolation :
    ∀ (gen : ForensicTicket → Except String String) (tickets : List ForensicTicket),
      (tickets.map (fun t => t.id)).Nodup →
      ∀ t ∈ tickets,
        alistGet? (analyzeRemarksReports gen tickets) t.id =
          runForensicAnalysisForTicket (gen t) := by
  intro gen tickets hnodup t ht
  unfold analyzeRemarksReports
  exact analyzeRemarksLoop_lookup gen tickets [] t ht hnodup rfl

/-- A sample ticket for concrete witnesses. -/
def witnessTicket : ForensicTicket :=
  { id := "T1", delay := 12, service := "Building Plan", parentService := "Town Planning",
    stage := "Scrutiny", lastActionBy := "Officer A" }

/-- A provider stub returning a well-formed nested forensic response. -/
def witnessGen : ForensicTicket → Except String String :=
  fun _ => Except.ok "\x7b\"employeeRemarkAnalysis\": \x7b\"summary\": \"ok\"\x7d\x7d"

/-- A provider stub that always fails (models a thrown provider error). -/
def failGen : ForensicTicket → Except String String :=
  fun _ => Except.error "provider unavailable"

/-- A partial parsed response with only the nested analysis present. -/
def witnessPartialParsed : JsValue :=
  JsValue.obj [("employeeRemarkAnalysis", JsValue.obj [])]

/-- C3 witness: a concrete accepted report satisfies the full schema, and the
default applicant analysis is substituted when that field is absent. -/
theorem forensicReports_full_schema_witness :
    fullReportSchema
      ((alistGet? (analyzeRemarksReports witnessGen [witnessTicket]) "T1").getD JsValue.null) ∧
      jsGet ((adaptParsed witnessPartialParsed).getD JsValue.null) "applicantRemarkAnalysis" =
        defaultApplicantRemarkAnalysis := by
  constructor
  · have hr : alistGet? (analyzeRemarksReports witnessGen [witnessTicket]) "T1" =
        some ((alistGet? (analyzeRemarksReports witnessGen [witnessTicket]) "T1").getD
          JsValue.null) := by rfl
    exact forensicReports_full_schema.1 witnessGen [witnessTicket] "T1" _ hr
  · have hp : adaptParsed witnessPartialParsed =
        some ((adaptParsed witnessPartialParsed).getD JsValue.null) := by rfl
    exact (forensicReports_full_schema.2 witnessPartialParsed _ hp).1 (by rfl)

/-- C4 witness: with a failing provider the batch completes and the ticket is
simply absent from the map (its entry equals its own failed outcome). -/
theorem forensic_per_ticket_isolation_witness :
    alistGet? (analyzeRemarksReports failGen [witnessTicket]) witnessTicket.id =
      runForensicAnalysisForTicket (failGen witnessTicket) := by
  exact forensic_per_ticket_isolation failGen [witnessTicket] (by simp) witnessTicket
    (List.mem_singleton_self _)

/-! ### Capability gateway (`AIFactory`, claim C9) and fallback (claim C5) -/

/-- The closed provider set of AIFactory.ts. -/
inductive AIProvider where
  | ollama
  | openai
  | gemini
  | claude
  deriving DecidableEq, Repr

/-- The process environment keys consulted by `createServiceInstance`. -/
structure AIEnv where
  openaiKey : Option String
  geminiKey : Option String
  claudeKey : Option String

/-- JS truthiness of an optional string (absent and empty are falsy). -/
def jsTruthyOptStr (o : Option String) : Bool :=
  match o with
  | some s => decide (s ≠ "")
  | none => false

/-- The factory singleton state: provider instances are identified by the
order of construction (a fresh construction takes the next identifier). -/
structure AIFactoryState where
  services : List (AIProvider × Nat)
  nextId : Nat
  deriving Repr

/-- `createServiceInstance(provider, apiKey)`: a fresh instance; the key
providers throw when neither an override nor an environment key is set.  The
provider type is closed, so the unknown-provider fallback arm of the source
switch is unreachable. -/
def createServiceInstance (env : AIEnv) (st : AIFactoryState) (provider : AIProvider)
    (apiKey : Option String) : Except String (Nat × AIFactoryState) :=
  match provider with
  | AIProvider.ollama => Except.ok (st.nextId, { st with nextId := st.nextId + 1 })
  | AIProvider.openai =>
    let key := if jsTruthyOptStr apiKey then apiKey else env.openaiKey
    if ¬ jsTruthyOptStr key then Except.error "OPENAI_API_KEY is not set"
    else Except.ok (st.nextId, { st with nextId := st.nextId + 1 })
  | AIProvider.gemini =>
    let key := if jsTruthyOptStr apiKey then apiKey else env.geminiKey
    if ¬ jsTruthyOptStr key then Except.error "GEMINI_API_KEY is not set"
    else Except.ok (st.nextId, { st with nextId := st.nextId + 1 })
  | AIProvider.claude =>
    let key := if jsTruthyOptStr apiKey then apiKey else env.claudeKey
    if ¬ jsTruthyOptStr key then Except.error "CLAUDE_API_KEY is not set"
    else Except.ok (st.nextId, { st with nextId := st.nextId + 1 })

/-- `AIFactory.getService(provider, apiKey)`: a truthy override always builds
a fresh uncached instance; otherwise the cached instance is returned, lazily
constructing and storing it on first use. -/
def getService (env : AIEnv) (st : AIFactoryState) (provider : AIProvider)
    (apiKey : Option String) : Except String (Nat × AIFactoryState) :=
  if jsTruthyOptStr apiKey then createServiceInstance env st provider apiKey
  else
    match alistGet? st.services provider with
    | some inst => Except.ok (inst, st)
    | none =>
      match createServiceInstance env st provider none with
      | Except.error e => Except.error e
      | Except.ok (i, st2) =>
        Except.ok (i, { st2 with services := alistAppend st2.services provider i })

/-- The state seeded by the private constructor (a default Ollama service). -/
def initialFactoryState : AIFactoryState :=
  { services := [(AIProvider.ollama, 0)], nextId := 1 }

/-- Well-formedness: every cached identifier was issued in the past. -/
def factoryWF (st : AIFactoryState) : Prop :=
  ∀ e ∈ st.services, e.2 < st.nextId

theorem createServiceInstance_ok {env : AIEnv} {st : AIFactoryState} {p : AIProvider}
    {key : Option String} {i : Nat} {st2 : AIFactoryState}
    (h : createServiceInstance env st p key = Except.ok (i, st2)) :
    i = st.nextId ∧ st2.services = st.services ∧ st2.nextId = st.nextId + 1 := by
  cases p <;> simp only [createServiceInstance] at h
  all_goals
    repeat' split at h
    all_goals
      first
        | (simp only [Except.ok.injEq, Prod.mk.injEq] at h
           exact ⟨h.1.symm, by rw [← h.2], by rw [← h.2]⟩)
        | exact absurd h (by simp)

/-- `analyzeProjectData` error handling (part_005 lines 95-111): run the whole
generative stage with the configured provider; on failure retry the stage with
Ollama only when the configured provider was not already Ollama; a second
failure (or a failure with Ollama configured) propagates.  The second
component records the sequence of providers attempted. -/
def analyzeProjectDataFallback {α : Type} (perform : AIProvider → Except String α)
    (provider : AIProvider) : Except String α × List AIProvider :=
  match perform provider with
  | Except.ok v => (Except.ok v, [provider])
  | Except.error e =>
    if provider ≠ AIProvider.ollama then
      match perform AIProvider.ollama with
      | Except.ok v => (Except.ok v, [provider, AIProvider.ollama])
      | Except.error e2 => (Except.error e2, [provider, AIProvider.ollama])
    else
      (Except.error e, [provider])

/-- C5 (amended): on success the stage runs once; on failure of a non-Ollama
provider the whole stage is retried exactly once with Ollama and that retry's
outcome is surfaced; but when the configured provider is already Ollama a
failure propagates immediately with no retry at all (the unconditional
"retries exactly once using the default provider" of the claim is false; see
the counterexample). -/
theorem provider_fallback_single_retry {α : Type}
    (perform : AIProvider → Except String α) (p : AIProvider) :
    (∀ v, perform p = Except.ok v →
      analyzeProjectDataFallback perform p = (Except.ok v, [p])) ∧
    (∀ e, perform p = Except.error e → p ≠ AIProvider.ollama →
      analyzeProjectDataFallback perform p =
        (perform AIProvider.ollama, [p, AIProvider.ollama])) ∧
    (∀ e, perform p = Except.error e → p = AIProvider.ollama →
      analyzeProjectDataFallback perform p = (Except.error e, [p])) := by
  refine ⟨?_, ?_, ?_⟩
  · intro v hv
    simp [analyzeProjectDataFallback, hv]
  · intro e he hne
    simp only [analyzeProjectDataFallback, he]
    rw [if_pos hne]
    cases h2 : perform AIProvider.ollama <;> simp [h2]
  · intro e he hp
    subst hp
    simp [analyzeProjectDataFallback, he]

/-- A provider oracle for the C5 witness: OpenAI fails, everything else
answers 7. -/
def performW : AIProvider → Except String Nat :=
  fun p =>
    match p with
    | AIProvider.openai => Except.error "auth failure"
    | _ => Except.ok 7

/-- C5 witness: with the failing-OpenAI oracle, a configured OpenAI provider
is retried once with Ollama and surfaces Ollama's outcome, while a healthy
Ollama provider runs the stage exactly once. -/
theorem provider_fallback_single_retry_witness :
    analyzeProjectDataFallback performW AIProvider.openai =
      (performW AIProvider.ollama, [AIProvider.openai, AIProvider.ollama]) ∧
    analyzeProjectDataFallback performW AIProvider.ollama =
      (Except.ok 7, [AIProvider.ollama]) := by
  constructor
  · exact (provider_fallback_single_retry performW AIProvider.openai).2.1
      "auth failure" rfl (by decide)
  · exact (provider_fallback_single_retry performW AIProvider.ollama).1 7 rfl

/-- C5 counterexample: when the configured provider is already Ollama and the
stage fails, there is no retry: the error propagates directly and only one
attempt is made, contradicting the claim's unconditional single retry with
the default provider. -/
theorem provider_fallback_no_retry_counterexample :
    analyzeProjectDataFallback
        (fun _ => (Except.error "provider down" : Except String Unit))
        AIProvider.ollama =
      (Except.error "provider down", [AIProvider.ollama]) ∧
    (analyzeProjectDataFallback
        (fun _ => (Except.error "provider down" : Except String Unit))
        AIProvider.ollama).2.length = 1 := ⟨rfl, rfl⟩

/-- C9: (1) a call with a credential override (any non-empty key) returns a
freshly constructed instance: the returned cache equals the old cache (the
fresh instance is never stored) and the returned identifier is not any cached
identifier; (2) without an override, a repeated call for the same provider
returns the identical cached instance and leaves the state unchanged. -/
theorem gateway_override_fresh_cache_stable :
    (∀ (env : AIEnv) (st : AIFactoryState) (p : AIProvider) (k : String) (i : Nat)
        (st2 : AIFactoryState), factoryWF st → k ≠ "" →
      getService env st p (some k) = Except.ok (i, st2) →
        st2.services = st.services ∧ i ∉ st.services.map Prod.snd) ∧
    (∀ (env : AIEnv) (st : AIFactoryState) (p : AIProvider) (i : Nat)
        (st2 : AIFactoryState),
      getService env st p none = Except.ok (i, st2) →
      getService env st2 p none = Except.ok (i, st2)) := by
  constructor
  · intro env st p k i st2 hwf hk h
    have htr : jsTruthyOptStr (some k) = true := by
      simp [jsTruthyOptStr, hk]
    simp only [getService, htr, if_true] at h
    obtain ⟨hi, hs, _⟩ := createServiceInstance_ok h
    refine ⟨hs, ?_⟩
    subst hi
    intro hmem
    simp only [List.mem_map] at hmem
    obtain ⟨e, he, heq⟩ := hmem
    have := hwf e he
    omega
  · intro env st p i st2 h
    have hf : jsTruthyOptStr none = false := rfl
    simp only [getService, hf, Bool.false_eq_true, if_false] at h ⊢
    cases hlook : alistGet? st.services p with
    | some inst =>
      rw [hlook] at h
      simp only [Except.ok.injEq, Prod.mk.injEq] at h
      obtain ⟨hi, hst⟩ := h
      subst hi
      subst hst
      rw [hlook]
    | none =>
      rw [hlook] at h
      cases hc : createServiceInstance env st p none with
      | error e =>
        rw [hc] at h
        exact absurd h (by simp)
      | ok pr =>
        obtain ⟨i0, st0⟩ := pr
        rw [hc] at h
        simp only [Except.ok.injEq, Prod.mk.injEq] at h
        obtain ⟨hi, hst⟩ := h
        obtain ⟨_, hs0, _⟩ := createServiceInstance_ok hc
        subst hi
        subst hst
        show (match alistGet? (alistAppend st0.services p i0) p with
          | some inst => Except.ok (inst, { st0 with services := alistAppend st0.services p i0 })
          | none =>
            match createServiceInstance env
                { st0 with services := alistAppend st0.services p i0 } p none with
            | Except.error e => Except.error e
            | Except.ok (i, st3) =>
              Except.ok (i, { st3 with services := alistAppend st3.services p i })) =
          Except.ok (i0, { st0 with services := alistAppend st0.services p i0 })
        have hlook2 : alistGet? (alistAppend st0.services p i0) p = some i0 := by
          unfold alistAppend
          rw [alistGet?_append_single, hs0, hlook]
          simp
        rw [hlook2]

/-- A concrete environment for the C9 witness (no provider keys set). -/
def envW : AIEnv := { openaiKey := none, geminiKey := none, claudeKey := none }

/-- A warmed-up factory state for the C9 witness. -/
def warmState : AIFactoryState := { services := [(AIProvider.ollama, 5)], nextId := 6 }

/-- C9 witness: overriding the key on the seeded singleton state returns the
fresh instance 1 without storing it, and a repeated override-free call on a
warmed-up state returns the identical cached instance 5 unchanged. -/
theorem gateway_override_fresh_cache_stable_witness :
    (({ services := [(AIProvider.ollama, 0)], nextId := 2 } : AIFactoryState).services =
        initialFactoryState.services ∧
      1 ∉ initialFactoryState.services.map Prod.snd) ∧
    getService envW warmState AIProvider.ollama none = Except.ok (5, warmState) := by
  constructor
  · exact gateway_override_fresh_cache_stable.1 envW initialFactoryState AIProvider.ollama
      "user-key" 1 { services := [(AIProvider.ollama, 0)], nextId := 2 }
      (by unfold factoryWF; decide) (by decide) rfl
  · exact gateway_override_fresh_cache_stable.2 envW warmState AIProvider.ollama 5
      warmState rfl
